import Mathlib

/-!
Heap visualizer: the operation state machine of `src/main.cpp`

A shallow embedding of `class HeapVisualizer` (`src/main.cpp`, lines 26-247) and theorems
about it.

Modelling conventions.

* `int` fields (`currentIdx`, `compareIdx`, `heapSize`, `animationProgress`, `Node::value`)
  are `Int`.  Signed overflow is undefined in C++ and is outside the model; reaching it needs
  more than `2^31 / 5` consecutive ticks.
* `float` coordinates are exact rationals (`ℚ`); the constant `0.2f` is `1/5`.  The model is
  therefore the exact-arithmetic idealisation of the animation.
* `std::vector<Node>` is `List Node`.  `heap[i]` with `i` outside `[0, heap.size())` is
  undefined behaviour; `Update` returns `none` at the first such access.
* `SetStatus` and `InvalidateRect` only talk to the window; they are not part of the state.
-/

namespace HeapVisualizer

/-- Constant `VERTICAL_SPACING` (line 22). -/
def VERTICAL_SPACING : Int := 60

/-- Constant `ANIMATION_STEP_INCREMENT` (line 24). -/
def ANIMATION_STEP_INCREMENT : Int := 5

/-- A `struct Node` (lines 26-32). -/
structure Node where
  value : Int
  x : ℚ
  y : ℚ
  targetX : ℚ
  targetY : ℚ
deriving DecidableEq

/-- The constructor `Node(int v)` (line 31): all coordinates zero. -/
def Node.new (v : Int) : Node := ⟨v, 0, 0, 0, 0⟩

/-- The `enum class AppState` (lines 34-43). -/
inductive AppState where
  | IDLE
  | INSERT_CHECK
  | INSERT_SWAP
  | SORT_EXTRACT
  | SORT_SHRINK
  | SORT_HEAPIFY_CHECK
  | SORT_HEAPIFY_SWAP
  | SORT_COMPLETED
deriving DecidableEq

/-- A Win32 `RECT`. -/
structure RECT where
  left : Int
  top : Int
  right : Int
  bottom : Int
deriving DecidableEq

/-- The data members of `class HeapVisualizer` (lines 47-57), `hWnd` apart. -/
structure State where
  heap : List Node
  state : AppState
  clientRect : RECT
  animationProgress : Int
  currentIdx : Int
  compareIdx : Int
  isMaxHeap : Bool
  heapSize : Int
deriving DecidableEq

/-- The constructor (lines 60-61).  `clientRect` is not initialised by it; the rectangle the
first `WM_SIZE` stores is a parameter. -/
def init (r : RECT) : State :=
  { heap := [], state := .IDLE, clientRect := r, animationProgress := 0,
    currentIdx := -1, compareIdx := -1, isMaxHeap := true, heapSize := 0 }

/-- Whether `heap[i]` is a defined access. -/
def inBounds (heap : List Node) (i : Int) : Prop := 0 ≤ i ∧ i < heap.length

instance (heap : List Node) (i : Int) : Decidable (inBounds heap i) := by
  unfold inBounds; infer_instance

/-- The element `heap[i]`; only used under an `inBounds` guard. -/
def nodeAt (heap : List Node) (i : Int) : Node := heap.getD i.toNat (Node.new 0)

/-- The assignment `heap[i] = f(heap[i])`; only used under an `inBounds` guard. -/
def modifyAt (heap : List Node) (i : Int) (f : Node → Node) : List Node :=
  heap.set i.toNat (f (nodeAt heap i))

/-- Method `GetNodePos(index, outX, outY)` (lines 68-80).  `out` holds the two reference
arguments on entry, the result holds them on exit. -/
def GetNodePos (clientRect : RECT) (index : Int) (out : ℚ × ℚ) : ℚ × ℚ :=
  if index < 0 then out
  else
    let level : Nat := Nat.log2 (index + 1).toNat
    let itemsInLevel : Int := 2 ^ level
    let posInLevel : Int := index - (itemsInLevel - 1)
    let width : ℚ := ((clientRect.right - clientRect.left : Int) : ℚ)
    let slice : ℚ := width / ((itemsInLevel + 1 : Int) : ℚ)
    (slice * ((posInLevel + 1 : Int) : ℚ),
      (clientRect.top : ℚ) + 30 + (((level : Int) * VERTICAL_SPACING : Int) : ℚ))

/-- The body of the loop of `RecalculateLayout` (lines 85-87) for index `i`. -/
def relayoutNode (clientRect : RECT) (i : Nat) (n : Node) : Node :=
  let p := GetNodePos clientRect (i : Int) (n.x, n.y)
  { n with x := p.1, y := p.2, targetX := p.1, targetY := p.2 }

/-- Method `RecalculateLayout` (lines 82-90). -/
def RecalculateLayout (s : State) : State :=
  if s.state = .IDLE then { s with heap := s.heap.mapIdx (relayoutNode s.clientRect) }
  else s

/-- Method `SetRect` (lines 63-66). -/
def SetRect (s : State) (r : RECT) : State :=
  RecalculateLayout { s with clientRect := r }

/-- Method `Insert(value, max)` (lines 92-117). -/
def Insert (s : State) (value : Int) (max : Bool) : State :=
  if s.state ≠ .IDLE ∧ s.state ≠ .SORT_COMPLETED then s
  else
    let s1 : State :=
      if s.state = .SORT_COMPLETED then { s with heapSize := s.heap.length, state := .IDLE }
      else s
    let heap1 := s1.heap ++ [Node.new value]
    let heapSize : Int := heap1.length
    let newIdx : Int := heapSize - 1
    let p := GetNodePos s1.clientRect newIdx (0, 0)
    let heap2 := modifyAt heap1 newIdx
      (fun n => { n with x := p.1, y := p.2, targetX := p.1, targetY := p.2 })
    { s1 with isMaxHeap := max, heap := heap2, heapSize := heapSize, currentIdx := newIdx,
              state := .INSERT_CHECK }

/-- Method `StartSort` (lines 119-126). -/
def StartSort (s : State) : State :=
  if s.heap = [] ∨ (s.state ≠ .IDLE ∧ s.state ≠ .SORT_COMPLETED) then s
  else { s with heapSize := s.heap.length, isMaxHeap := true, state := .SORT_EXTRACT }

/-- Method `Reset` (lines 128-134). -/
def Reset (s : State) : State :=
  { s with heap := [], state := .IDLE, heapSize := 0 }

/-- Method `PrepareSwap(i, j)` (lines 236-247); `none` when `heap[i]` or `heap[j]` is out of
bounds. -/
def PrepareSwap (s : State) (i j : Int) : Option State :=
  let pi := GetNodePos s.clientRect i (0, 0)
  let pj := GetNodePos s.clientRect j (0, 0)
  if inBounds s.heap i ∧ inBounds s.heap j then
    let h1 := modifyAt s.heap i (fun n => { n with targetX := pj.1, targetY := pj.2 })
    let h2 := modifyAt h1 j (fun n => { n with targetX := pi.1, targetY := pi.2 })
    some { s with heap := h2, animationProgress := 0 }
  else none

/-- The lambda `moveTowards` (lines 145-149) on one coordinate: the new value of `curr`. -/
def moveTowards (curr target : ℚ) : ℚ :=
  let diff := target - curr
  if |diff| < 2 then target else curr + diff * (1 / 5)

/-- The four `moveTowards` calls on one node (lines 151-152, 153-154). -/
def advance (n : Node) : Node :=
  { n with x := moveTowards n.x n.targetX, y := moveTowards n.y n.targetY }

/-- The arrival test on one node (one half of lines 156-157). -/
def arrived (n : Node) : Prop := |n.x - n.targetX| < 1 ∧ |n.y - n.targetY| < 1

instance (n : Node) : Decidable (arrived n) := by
  unfold arrived; infer_instance

/-- The snap of one node onto its target (lines 159, 160). -/
def snap (n : Node) : Node := { n with x := n.targetX, y := n.targetY }

/-- The call `std::swap(heap[i], heap[j])` (line 162); only used under `inBounds` guards. -/
def swapNodes (heap : List Node) (i j : Int) : List Node :=
  (heap.set i.toNat (nodeAt heap j)).set j.toNat (nodeAt heap i)

/-- The state a committed swap leads to (lines 165-171). -/
def afterSwap (st : AppState) : AppState :=
  if st = .INSERT_SWAP then .INSERT_CHECK
  else if st = .SORT_EXTRACT then .SORT_SHRINK
  else if st = .SORT_HEAPIFY_SWAP then .SORT_HEAPIFY_CHECK
  else st

/-- The animation branch of `Update` (lines 139-175). -/
def animate (s : State) : Option State :=
  if inBounds s.heap s.currentIdx ∧ inBounds s.heap s.compareIdx then
    let h1 := modifyAt s.heap s.currentIdx advance
    let h2 := modifyAt h1 s.compareIdx advance
    let s1 : State :=
      { s with animationProgress := s.animationProgress + ANIMATION_STEP_INCREMENT, heap := h2 }
    if arrived (nodeAt h2 s.currentIdx) ∧ arrived (nodeAt h2 s.compareIdx) then
      let h3 := modifyAt h2 s.currentIdx snap
      let h4 := modifyAt h3 s.compareIdx snap
      some { s1 with heap := swapNodes h4 s.currentIdx s.compareIdx,
                     currentIdx := s.compareIdx, compareIdx := s.currentIdx,
                     state := afterSwap s.state }
    else some s1
  else none

/-- The `INSERT_CHECK` branch of `Update` (lines 177-200). -/
def insertCheck (s : State) : Option State :=
  if s.currentIdx = 0 then some (RecalculateLayout { s with state := .IDLE })
  else
    let parentIdx : Int := (s.currentIdx - 1).tdiv 2
    if inBounds s.heap s.currentIdx ∧ inBounds s.heap parentIdx then
      let swapNeeded : Prop :=
        (s.isMaxHeap = true ∧ (nodeAt s.heap s.currentIdx).value > (nodeAt s.heap parentIdx).value) ∨
        (s.isMaxHeap = false ∧ (nodeAt s.heap s.currentIdx).value < (nodeAt s.heap parentIdx).value)
      if swapNeeded then
        (PrepareSwap { s with compareIdx := parentIdx } s.currentIdx parentIdx).map
          (fun t => { t with state := .INSERT_SWAP })
      else some { s with state := .IDLE }
    else none

/-- The `SORT_EXTRACT` branch of `Update` (lines 201-211). -/
def sortExtract (s : State) : Option State :=
  if s.heapSize ≤ 1 then some { s with state := .SORT_COMPLETED }
  else
    PrepareSwap { s with currentIdx := 0, compareIdx := s.heapSize - 1 } 0 (s.heapSize - 1)

/-- The `SORT_SHRINK` branch of `Update` (lines 212-216). -/
def sortShrink (s : State) : Option State :=
  some { s with heapSize := s.heapSize - 1, currentIdx := 0, state := .SORT_HEAPIFY_CHECK }

/-- One of the two guarded comparisons of lines 222-223: the new value of `largest`, `none`
when the comparison reads out of bounds. -/
def pickLarger (s : State) (child largest : Int) : Option Int :=
  if child < s.heapSize then
    if inBounds s.heap child ∧ inBounds s.heap largest then
      some (if (nodeAt s.heap child).value > (nodeAt s.heap largest).value then child
            else largest)
    else none
  else some largest

/-- The `SORT_HEAPIFY_CHECK` branch of `Update` (lines 217-233). -/
def sortHeapifyCheck (s : State) : Option State :=
  let left : Int := 2 * s.currentIdx + 1
  let right : Int := 2 * s.currentIdx + 2
  (pickLarger s left s.currentIdx).bind fun l1 =>
  (pickLarger s right l1).bind fun largest =>
    if largest ≠ s.currentIdx then
      (PrepareSwap { s with compareIdx := largest } s.currentIdx largest).map
        (fun t => { t with state := .SORT_HEAPIFY_SWAP })
    else some { s with state := .SORT_EXTRACT }

/-- Method `Update` (lines 136-234), one timer tick; `none` when the tick indexes the vector
out of bounds. -/
def Update (s : State) : Option State :=
  if s.state = .IDLE ∨ s.state = .SORT_COMPLETED then some s
  else if s.state = .INSERT_SWAP ∨ s.state = .SORT_HEAPIFY_SWAP ∨ s.state = .SORT_EXTRACT then
    animate s
  else if s.state = .INSERT_CHECK then insertCheck s
  else if s.state = .SORT_EXTRACT then sortExtract s
  else if s.state = .SORT_SHRINK then sortShrink s
  else if s.state = .SORT_HEAPIFY_CHECK then sortHeapifyCheck s
  else some s

/-- The messages the window procedure forwards to the visualizer (lines 383-409): the two
insert buttons, the heapsort button, the reset button, `WM_TIMER` and `WM_SIZE`. -/
inductive Cmd where
  | insert (value : Int) (max : Bool)
  | startSort
  | reset
  | tick
  | resize (r : RECT)
deriving DecidableEq

/-- The effect of one message; `none` when the tick indexes the vector out of bounds. -/
def Cmd.apply (c : Cmd) (s : State) : Option State :=
  match c with
  | .insert v m => some (Insert s v m)
  | .startSort => some (StartSort s)
  | .reset => some (Reset s)
  | .tick => Update s
  | .resize r => some (SetRect s r)

/-- The effect of a sequence of messages, first message first. -/
def run : List Cmd → State → Option State
  | [], s => some s
  | c :: cs, s => (c.apply s).bind (run cs)

/-- The states the program can be in: those a message sequence leads to from the constructor's
state, every tick on the way being defined. -/
def Reachable (r : RECT) (s : State) : Prop := ∃ cmds, run cmds (init r) = some s

/-- Ticks `n` times. -/
def ticks : Nat → State → Option State
  | 0, s => some s
  | n + 1, s => (Update s).bind (ticks n)

/-- Ticks until the state is `IDLE`, at most `fuel` times; `none` when a tick is undefined or
the fuel runs out first. -/
def settle : Nat → State → Option State
  | 0, s => if s.state = .IDLE then some s else none
  | fuel + 1, s => if s.state = .IDLE then some s else (Update s).bind (settle fuel)

/-- The stored values, in array order. -/
def values (s : State) : List Int := s.heap.map Node.value

/-- The anchor of index `i`: what `GetNodePos` stores for a non-negative index. -/
def anchor (r : RECT) (i : Int) : ℚ × ℚ := GetNodePos r i (0, 0)

/-- A sample surface: the client area of the 1024x768 window after `WM_SIZE` trimmed it. -/
def sampleRect : RECT := ⟨0, 55, 1008, 684⟩

/-- A sample state in phase `SORT_COMPLETED` whose live region is shorter than the vector. -/
def sampleCompleted : State :=
  { heap := [⟨3, 504, 85, 504, 85⟩, ⟨5, 336, 145, 336, 145⟩], state := .SORT_COMPLETED,
    clientRect := sampleRect, animationProgress := 5, currentIdx := 1, compareIdx := 0,
    isMaxHeap := true, heapSize := 1 }

/-- A sample state in phase `INSERT_SWAP`: 7 was appended below 5 in a max-heap and the two
nodes are about to move. -/
def sampleInsertSwap : State :=
  { heap := [⟨5, 504, 85, 336, 145⟩, ⟨7, 336, 145, 504, 85⟩], state := .INSERT_SWAP,
    clientRect := sampleRect, animationProgress := 0, currentIdx := 1, compareIdx := 0,
    isMaxHeap := true, heapSize := 2 }

/-- Messages that build the max-heap `[2, 1]` (1, then 2, which sifts up over 21 animation
ticks) and press the heapsort button. -/
def sortPairCmds : List Cmd :=
  [.insert 1 true, .tick, .insert 2 true, .tick] ++ List.replicate 21 .tick ++ [.tick, .startSort]

/-- The state two ticks after `sortPairCmds`: the live region has shrunk to one node. -/
def pairShrunk : State :=
  { heap := [⟨1, 336, 145, 336, 145⟩, ⟨2, 504, 85, 504, 85⟩], state := .SORT_HEAPIFY_CHECK,
    clientRect := sampleRect, animationProgress := 110, currentIdx := 0, compareIdx := 0,
    isMaxHeap := true, heapSize := 1 }

/-- The state three ticks after `sortPairCmds`: phase `SORT_EXTRACT`, one live node, the
vector `[1, 2]` already ascending. -/
def pairExtract : State := { pairShrunk with state := .SORT_EXTRACT }

/-- The state after inserting 5 into the empty heap, one tick, and the heapsort button. -/
def singleSort : State :=
  { heap := [⟨5, 504, 85, 504, 85⟩], state := .SORT_EXTRACT, clientRect := sampleRect,
    animationProgress := 0, currentIdx := 0, compareIdx := -1, isMaxHeap := true,
    heapSize := 1 }

/-- The two size facts of the heap store. -/
def SizeInv (s : State) : Prop :=
  s.heapSize ≤ s.heap.length ∧
  ((s.state = .IDLE ∨ s.state = .INSERT_CHECK ∨ s.state = .INSERT_SWAP) →
    s.heapSize = s.heap.length)

/-- The value stored at `heap[i]`. -/
def valAt (heap : List Node) (i : Int) : Int := (nodeAt heap i).value

/-- The order a heap of the given kind keeps between a parent's value and a child's: for a
max-heap parent ≥ child, for a min-heap parent ≤ child. -/
def inOrder (max : Bool) (parent child : Int) : Prop :=
  if max then parent ≥ child else parent ≤ child

instance (max : Bool) (a b : Int) : Decidable (inOrder max a b) := by
  unfold inOrder; infer_instance

/-- The heap property of the given kind on the live region `[0, heapSize)`: every index
`i > 0` of the region is in order with its parent `(i - 1) / 2`. -/
def HeapProperty (max : Bool) (s : State) : Prop :=
  ∀ i : Int, 0 < i → i < s.heapSize →
    inOrder max (valAt s.heap ((i - 1) / 2)) (valAt s.heap i)

/-- The heap property on `[0, n)` of a value function, except possibly between `c` and its
parent; the children of `c` are in order with the parent of `c`. -/
def AlmostHeap (max : Bool) (v : Int → Int) (n c : Int) : Prop :=
  (∀ i : Int, 0 < i → i < n → i ≠ c → inOrder max (v ((i - 1) / 2)) (v i)) ∧
  (∀ i : Int, 0 < i → i < n → (i - 1) / 2 = c → 0 < c → inOrder max (v ((c - 1) / 2)) (v i))

/-- What holds of every state of a run of `Insert(_, kind)` and ticks. -/
def SiftInv (kind : Bool) (s : State) : Prop :=
  s.heapSize = s.heap.length ∧
  ((s.state = .IDLE ∧ HeapProperty kind s) ∨
   (s.state = .INSERT_CHECK ∧ s.isMaxHeap = kind ∧ inBounds s.heap s.currentIdx ∧
      AlmostHeap kind (valAt s.heap) s.heap.length s.currentIdx) ∨
   (s.state = .INSERT_SWAP ∧ s.isMaxHeap = kind ∧ inBounds s.heap s.currentIdx ∧
      0 < s.currentIdx ∧ s.compareIdx = (s.currentIdx - 1) / 2 ∧
      AlmostHeap kind (valAt s.heap) s.heap.length s.currentIdx ∧
      ¬ inOrder kind (valAt s.heap s.compareIdx) (valAt s.heap s.currentIdx)))

/-- Whether a message belongs to an insertion session of the given kind: a tick, a resize, or
an insert of that kind. -/
def insertSession (kind : Bool) : Cmd → Bool
  | .tick => true
  | .resize _ => true
  | .insert _ m => m == kind
  | _ => false

/-- Messages that insert 5, 3 and 8 into a max-heap, each followed by ticks until the phase is
`IDLE` again (one tick for 5 and for 3; for 8 the check, 21 animation ticks and a check). -/
def build538 : List Cmd :=
  [.insert 5 true, .tick, .insert 3 true, .tick, .insert 8 true, .tick] ++
    List.replicate 21 .tick ++ [.tick]

/-- Messages that insert 8, 5 and 3 into a max-heap, each followed by the one tick that
returns to `IDLE`: the heap `[8, 5, 3]`. -/
def build853 : List Cmd :=
  [.insert 8 true, .tick, .insert 5 true, .tick, .insert 3 true, .tick]

/-- The state after `build538` on the sample surface. -/
def heap835 : State :=
  { heap := [⟨8, 504, 85, 504, 85⟩, ⟨3, 336, 145, 336, 145⟩, ⟨5, 672, 145, 672, 145⟩],
    state := .IDLE, clientRect := sampleRect, animationProgress := 105, currentIdx := 0,
    compareIdx := 2, isMaxHeap := true, heapSize := 3 }

/-- What holds of every state of the sort started on `heap835`, from its first tick on: the
values are `[5, 3, 8]`, `compareIdx` is 0, and the phase cycles through `SORT_SHRINK`,
`SORT_HEAPIFY_CHECK` and `SORT_EXTRACT` with at most two live nodes left to compare. -/
def SortLoop (t : State) : Prop :=
  values t = [5, 3, 8] ∧ t.compareIdx = 0 ∧
  ((t.state = .SORT_SHRINK ∧ t.heapSize ≤ 3) ∨
   (t.state = .SORT_HEAPIFY_CHECK ∧ t.heapSize ≤ 2 ∧ t.currentIdx = 0) ∨
   (t.state = .SORT_EXTRACT ∧ t.heapSize ≤ 2 ∧ t.currentIdx = 0))

/-- A node that sits on its target. -/
def Rest (n : Node) : Prop := n.x = n.targetX ∧ n.y = n.targetY

/-- The vector after the four `moveTowards` calls of a tick (lines 151-154). -/
def movedHeap (s : State) : List Node :=
  modifyAt (modifyAt s.heap s.currentIdx advance) s.compareIdx advance

/-- The state one tick after `sortPairCmds`: the extract exchange is committed, the phase is
`SORT_SHRINK`. -/
def pairSwapped : State :=
  { heap := [⟨1, 336, 145, 336, 145⟩, ⟨2, 504, 85, 504, 85⟩], state := .SORT_SHRINK,
    clientRect := sampleRect, animationProgress := 110, currentIdx := 1, compareIdx := 0,
    isMaxHeap := true, heapSize := 2 }

/-- The state three ticks after `StartSort` on `heap835`: phase `SORT_EXTRACT` for the second
time, two live nodes, both index variables 0. -/
def extractStale : State :=
  { heap := [⟨5, 672, 145, 672, 145⟩, ⟨3, 336, 145, 336, 145⟩, ⟨8, 504, 85, 504, 85⟩],
    state := .SORT_EXTRACT, clientRect := sampleRect, animationProgress := 110,
    currentIdx := 0, compareIdx := 0, isMaxHeap := true, heapSize := 2 }

/-- A sample state in phase `INSERT_CHECK`: 7 was just appended below 5 in a max-heap. -/
def sampleInsertCheck : State :=
  { heap := [⟨5, 504, 85, 504, 85⟩, ⟨7, 336, 145, 336, 145⟩], state := .INSERT_CHECK,
    clientRect := sampleRect, animationProgress := 0, currentIdx := 1, compareIdx := -1,
    isMaxHeap := true, heapSize := 2 }

/-- The tree level `GetNodePos` computes for a non-negative index (line 70):
`floor (log2 (index + 1))`. -/
def level (index : Int) : Nat := Nat.log2 (index + 1).toNat

/-- The position within its level `GetNodePos` computes for a non-negative index (lines
72-73): `index - (itemsInLevel - 1)` with `itemsInLevel = 2 ^ level`. -/
def posInLevel (index : Int) : Int := index - (2 ^ level index - 1)

/-- The index `largest` of lines 220-223, as a function of the values: `currentIdx`, replaced
by `left` if that is live and holds a greater value, replaced by `right` if that is live and
holds a greater value still. -/
def largestOf (s : State) : Int :=
  let left : Int := 2 * s.currentIdx + 1
  let right : Int := 2 * s.currentIdx + 2
  let l1 : Int :=
    if left < s.heapSize ∧ valAt s.heap left > valAt s.heap s.currentIdx then left
    else s.currentIdx
  if right < s.heapSize ∧ valAt s.heap right > valAt s.heap l1 then right else l1

/-- A sample state in phase `SORT_HEAPIFY_CHECK`: the root 3 above 5 and 8, three live nodes,
in a heap flagged as a min-heap. -/
def sampleHeapify : State :=
  { heap := [⟨3, 504, 85, 504, 85⟩, ⟨5, 336, 145, 336, 145⟩, ⟨8, 672, 145, 672, 145⟩],
    state := .SORT_HEAPIFY_CHECK, clientRect := sampleRect, animationProgress := 0,
    currentIdx := 0, compareIdx := 2, isMaxHeap := false, heapSize := 3 }

/-- The state one tick after `StartSort` on `heap835`: slots 0 and 2 exchanged, phase
`SORT_SHRINK`. -/
def sortFirstTick : State :=
  { heap := [⟨5, 672, 145, 672, 145⟩, ⟨3, 336, 145, 336, 145⟩, ⟨8, 504, 85, 504, 85⟩],
    state := .SORT_SHRINK, clientRect := sampleRect, animationProgress := 110,
    currentIdx := 2, compareIdx := 0, isMaxHeap := true, heapSize := 3 }

/-! ## Basic facts on the vector accessors -/

theorem nodeAt_append_last (h : List Node) (n : Node) :
    nodeAt (h ++ [n]) (((h ++ [n]).length : Int) - 1) = n := by
  simp [nodeAt, List.getD_eq_getElem?_getD]

theorem modifyAt_append_last (h : List Node) (n : Node) (f : Node → Node) :
    modifyAt (h ++ [n]) (((h ++ [n]).length : Int) - 1) f = h ++ [f n] := by
  unfold modifyAt
  rw [nodeAt_append_last]
  simp

/-! ## Reading the vector after a write -/

@[simp] theorem length_modifyAt (h : List Node) (i : Int) (f : Node → Node) :
    (modifyAt h i f).length = h.length := by
  simp [modifyAt]

@[simp] theorem length_swapNodes (h : List Node) (i j : Int) :
    (swapNodes h i j).length = h.length := by
  simp [swapNodes]

theorem nodeAt_modifyAt_same (h : List Node) (i : Int) (f : Node → Node) (hi : inBounds h i) :
    nodeAt (modifyAt h i f) i = f (nodeAt h i) := by
  have hlt : i.toNat < h.length := by
    have := hi.1; have := hi.2; omega
  simp [nodeAt, modifyAt, List.getD_eq_getElem?_getD, hlt]

theorem nodeAt_modifyAt_ne (h : List Node) (i j : Int) (f : Node → Node)
    (hi : 0 ≤ i) (hj : 0 ≤ j) (hne : i ≠ j) :
    nodeAt (modifyAt h i f) j = nodeAt h j := by
  have : i.toNat ≠ j.toNat := by omega
  simp [nodeAt, modifyAt, List.getD_eq_getElem?_getD, List.getElem?_set_ne this]

theorem inBounds_modifyAt (h : List Node) (i j : Int) (f : Node → Node) :
    inBounds (modifyAt h i f) j ↔ inBounds h j := by
  simp [inBounds]

theorem inBounds_swapNodes (h : List Node) (i j k : Int) :
    inBounds (swapNodes h i j) k ↔ inBounds h k := by
  simp [inBounds]

theorem nodeAt_swapNodes (h : List Node) (i j k : Int)
    (hi : inBounds h i) (hj : inBounds h j) (hk : 0 ≤ k) :
    nodeAt (swapNodes h i j) k
      = if k = j then nodeAt h i else if k = i then nodeAt h j else nodeAt h k := by
  have hil : i.toNat < h.length := by have := hi.1; have := hi.2; omega
  have hjl : j.toNat < h.length := by have := hj.1; have := hj.2; omega
  have h0i := hi.1
  have h0j := hj.1
  by_cases e1 : k = j
  · subst e1
    simp [nodeAt, swapNodes, List.getD_eq_getElem?_getD, hjl]
  · by_cases e2 : k = i
    · subst e2
      have : j.toNat ≠ k.toNat := by omega
      simp [nodeAt, swapNodes, List.getD_eq_getElem?_getD, hil, e1, List.getElem?_set_ne this]
    · have n1 : j.toNat ≠ k.toNat := by omega
      have n2 : i.toNat ≠ k.toNat := by omega
      simp [nodeAt, swapNodes, List.getD_eq_getElem?_getD, e1, e2, List.getElem?_set_ne n1,
        List.getElem?_set_ne n2]

/-- A write that keeps the node's value keeps every value of the vector. -/
theorem values_modifyAt (h : List Node) (i : Int) (f : Node → Node)
    (hf : ∀ n, (f n).value = n.value) :
    (modifyAt h i f).map Node.value = h.map Node.value := by
  unfold modifyAt
  apply List.ext_getElem?
  intro k
  by_cases hk : i.toNat = k
  · subst hk
    by_cases hlt : i.toNat < h.length
    · simp [nodeAt, List.getD_eq_getElem?_getD, hlt, hf]
    · simp [List.getElem?_eq_none (not_lt.mp hlt)]
      omega
  · simp [List.getElem?_set_ne hk]

theorem value_nodeAt_modifyAt (h : List Node) (i j : Int) (f : Node → Node)
    (hf : ∀ n, (f n).value = n.value) :
    (nodeAt (modifyAt h i f) j).value = (nodeAt h j).value := by
  have hv := values_modifyAt h i f hf
  have key : ∀ l : List Node, (nodeAt l j).value = (l.map Node.value).getD j.toNat 0 := by
    intro l
    simp only [nodeAt, List.getD_eq_getElem?_getD, List.getElem?_map]
    cases l[j.toNat]? <;> simp [Node.new]
  rw [key, key, hv]

@[simp] theorem advance_value (n : Node) : (advance n).value = n.value := rfl
@[simp] theorem snap_value (n : Node) : (snap n).value = n.value := rfl

/-! ## The user commands -/

/-- What an accepted `Insert` does (lines 95-113). -/
theorem Insert_accepted (s : State) (v : Int) (kind : Bool)
    (h : s.state = .IDLE ∨ s.state = .SORT_COMPLETED) :
    (Insert s v kind).heap
        = s.heap ++ [⟨v, (anchor s.clientRect s.heap.length).1,
                        (anchor s.clientRect s.heap.length).2,
                        (anchor s.clientRect s.heap.length).1,
                        (anchor s.clientRect s.heap.length).2⟩] ∧
      (Insert s v kind).heapSize = (Insert s v kind).heap.length ∧
      (Insert s v kind).heapSize = s.heap.length + 1 ∧
      (Insert s v kind).currentIdx = s.heap.length ∧
      (Insert s v kind).isMaxHeap = kind ∧
      (Insert s v kind).state = .INSERT_CHECK := by
  have hg : ¬ (s.state ≠ .IDLE ∧ s.state ≠ .SORT_COMPLETED) := by
    rcases h with h | h <;> simp [h]
  have hheap : (Insert s v kind).heap
        = s.heap ++ [⟨v, (anchor s.clientRect s.heap.length).1,
                        (anchor s.clientRect s.heap.length).2,
                        (anchor s.clientRect s.heap.length).1,
                        (anchor s.clientRect s.heap.length).2⟩] := by
    unfold Insert
    rw [if_neg hg]
    by_cases hc : s.state = .SORT_COMPLETED
    · simp only [hc, if_true]
      rw [modifyAt_append_last]
      simp [anchor, Node.new]
    · simp only [hc, if_false]
      rw [modifyAt_append_last]
      simp [anchor, Node.new]
  refine ⟨hheap, ?_, ?_, ?_, ?_, ?_⟩
  · rw [hheap]; unfold Insert; rw [if_neg hg]
    by_cases hc : s.state = .SORT_COMPLETED <;> simp [hc]
  · unfold Insert; rw [if_neg hg]; by_cases hc : s.state = .SORT_COMPLETED <;> simp [hc]
  · unfold Insert; rw [if_neg hg]; by_cases hc : s.state = .SORT_COMPLETED <;> simp [hc]
  · unfold Insert; rw [if_neg hg]
  · unfold Insert; rw [if_neg hg]

/-- Claim C5.  In phase `IDLE` or `SORT_COMPLETED`, `Insert(v, kind)` appends exactly one node
with value `v` at the tail, the earlier entries unchanged; the new node's position and target
are the anchor of its index; `heapSize` becomes the new length (whatever it was before),
`currentIdx` the new last index, `isMaxHeap` the kind and the phase `INSERT_CHECK`. -/
theorem insert_appends (s : State) (v : Int) (kind : Bool)
    (h : s.state = .IDLE ∨ s.state = .SORT_COMPLETED) :
    (Insert s v kind).heap
        = s.heap ++ [⟨v, (anchor s.clientRect s.heap.length).1,
                        (anchor s.clientRect s.heap.length).2,
                        (anchor s.clientRect s.heap.length).1,
                        (anchor s.clientRect s.heap.length).2⟩] ∧
      (Insert s v kind).heapSize = (Insert s v kind).heap.length ∧
      (Insert s v kind).heapSize = s.heap.length + 1 ∧
      (Insert s v kind).currentIdx = s.heap.length ∧
      (Insert s v kind).isMaxHeap = kind ∧
      (Insert s v kind).state = .INSERT_CHECK :=
  Insert_accepted s v kind h

/-- Claim C5 at `sampleCompleted` (two nodes, `heapSize = 1`), inserting 7 as a min-heap
value. -/
theorem insert_appends_witness :
    (sampleCompleted.state = .IDLE ∨ sampleCompleted.state = .SORT_COMPLETED) ∧
    ((Insert sampleCompleted 7 false).heap
        = sampleCompleted.heap ++
            [⟨7, (anchor sampleCompleted.clientRect sampleCompleted.heap.length).1,
                 (anchor sampleCompleted.clientRect sampleCompleted.heap.length).2,
                 (anchor sampleCompleted.clientRect sampleCompleted.heap.length).1,
                 (anchor sampleCompleted.clientRect sampleCompleted.heap.length).2⟩] ∧
      (Insert sampleCompleted 7 false).heapSize = (Insert sampleCompleted 7 false).heap.length ∧
      (Insert sampleCompleted 7 false).heapSize = sampleCompleted.heap.length + 1 ∧
      (Insert sampleCompleted 7 false).currentIdx = sampleCompleted.heap.length ∧
      (Insert sampleCompleted 7 false).isMaxHeap = false ∧
      (Insert sampleCompleted 7 false).state = .INSERT_CHECK) :=
  ⟨Or.inr rfl, insert_appends sampleCompleted 7 false (Or.inr rfl)⟩

/-- The guard of `Insert` (line 93). -/
theorem Insert_busy (s : State) (v : Int) (kind : Bool)
    (h1 : s.state ≠ .IDLE) (h2 : s.state ≠ .SORT_COMPLETED) :
    Insert s v kind = s := by
  unfold Insert
  rw [if_pos ⟨h1, h2⟩]

/-- Claim C6.  In a phase other than `IDLE` and `SORT_COMPLETED`, `Insert(v, kind)` returns
the state it was given: vector, `heapSize`, phase, both indices, `isMaxHeap` and
`animationProgress` are all unchanged. -/
theorem insert_ignored (s : State) (v : Int) (kind : Bool)
    (h1 : s.state ≠ .IDLE) (h2 : s.state ≠ .SORT_COMPLETED) :
    Insert s v kind = s :=
  Insert_busy s v kind h1 h2

/-- Claim C6 at `sampleInsertSwap`. -/
theorem insert_ignored_witness :
    sampleInsertSwap.state ≠ .IDLE ∧ sampleInsertSwap.state ≠ .SORT_COMPLETED ∧
    Insert sampleInsertSwap 9 true = sampleInsertSwap :=
  ⟨by decide, by decide, insert_ignored sampleInsertSwap 9 true (by decide) (by decide)⟩

/-- Claim C7.  `StartSort` returns the state it was given whenever the vector is empty or the
phase is neither `IDLE` nor `SORT_COMPLETED`; phase `INSERT_SWAP` is one such case. -/
theorem startSort_ignored (s : State)
    (h : s.heap = [] ∨ (s.state ≠ .IDLE ∧ s.state ≠ .SORT_COMPLETED)) :
    StartSort s = s := by
  unfold StartSort
  rw [if_pos h]

/-- Claim C7 at `sampleInsertSwap`. -/
theorem startSort_ignored_witness :
    (sampleInsertSwap.heap = [] ∨
      (sampleInsertSwap.state ≠ .IDLE ∧ sampleInsertSwap.state ≠ .SORT_COMPLETED)) ∧
    StartSort sampleInsertSwap = sampleInsertSwap :=
  ⟨Or.inr ⟨by decide, by decide⟩,
    startSort_ignored sampleInsertSwap (Or.inr ⟨by decide, by decide⟩)⟩

/-- Claim C8.  From any state `Reset` yields an empty vector, phase `IDLE` and `heapSize` 0,
and a second `Reset` changes nothing more. -/
theorem reset_clears_idempotent (s : State) :
    (Reset s).heap = [] ∧ (Reset s).state = .IDLE ∧ (Reset s).heapSize = 0 ∧
    Reset (Reset s) = Reset s := by
  simp [Reset]

/-! ## Frame facts: what each step leaves alone -/

@[simp] theorem RecalculateLayout_length (s : State) :
    (RecalculateLayout s).heap.length = s.heap.length := by
  unfold RecalculateLayout
  split <;> simp

@[simp] theorem RecalculateLayout_state (s : State) :
    (RecalculateLayout s).state = s.state := by
  unfold RecalculateLayout
  split <;> simp

@[simp] theorem RecalculateLayout_heapSize (s : State) :
    (RecalculateLayout s).heapSize = s.heapSize := by
  unfold RecalculateLayout
  split <;> simp

theorem PrepareSwap_frame {s t : State} {i j : Int} (h : PrepareSwap s i j = some t) :
    t.heap.length = s.heap.length ∧ t.state = s.state ∧ t.heapSize = s.heapSize ∧
    t.currentIdx = s.currentIdx ∧ t.compareIdx = s.compareIdx ∧ t.isMaxHeap = s.isMaxHeap ∧
    t.clientRect = s.clientRect := by
  unfold PrepareSwap at h
  split at h
  · cases h; simp
  · cases h

theorem SizeInv_init (r : RECT) : SizeInv (init r) := by
  simp [SizeInv, init]

theorem SizeInv_Insert (s : State) (v : Int) (m : Bool) (h : SizeInv s) :
    SizeInv (Insert s v m) := by
  by_cases hg : s.state = .IDLE ∨ s.state = .SORT_COMPLETED
  · obtain ⟨-, h2, -, -, -, h6⟩ := Insert_accepted s v m hg
    exact ⟨le_of_eq h2, fun _ => h2⟩
  · rw [Insert_busy s v m (fun h => hg (Or.inl h)) (fun h => hg (Or.inr h))]
    exact h

theorem SizeInv_StartSort (s : State) (h : SizeInv s) : SizeInv (StartSort s) := by
  unfold StartSort
  split
  · exact h
  · simp [SizeInv]

theorem SizeInv_Reset (s : State) : SizeInv (Reset s) := by
  simp [SizeInv, Reset]

theorem SizeInv_SetRect (s : State) (r : RECT) (h : SizeInv s) : SizeInv (SetRect s r) := by
  unfold SetRect SizeInv
  simpa using h

theorem SizeInv_Update {s t : State} (hu : Update s = some t) (h : SizeInv s) : SizeInv t := by
  obtain ⟨h1, h2⟩ := h
  unfold Update at hu
  split_ifs at hu with c1 c2 c3 c4 c5 c6
  · cases hu; exact ⟨h1, h2⟩
  · simp only [animate] at hu
    split_ifs at hu with b1 b2
    · cases hu
      refine ⟨by simpa using h1, ?_⟩
      intro hs
      have : s.state = .INSERT_SWAP := by
        rcases c2 with c | c | c <;> simp [afterSwap, c] at hs ⊢
      simpa using h2 (Or.inr (Or.inr this))
    · cases hu
      exact ⟨by simpa using h1, fun hs => by simpa using h2 hs⟩
  · simp only [insertCheck] at hu
    split_ifs at hu with b1 b2 b3
    · cases hu
      exact ⟨by simpa using h1, fun _ => by simpa using h2 (Or.inr (Or.inl c3))⟩
    · rw [Option.map_eq_some'] at hu
      obtain ⟨u, hu1, hu2⟩ := hu
      obtain ⟨e1, e2, e3, -⟩ := PrepareSwap_frame hu1
      cases hu2
      have := h2 (Or.inr (Or.inl c3))
      simp at e1 e3
      exact ⟨by simp [e1, e3, h1], fun _ => by simp [e1, e3, this]⟩
    · cases hu
      exact ⟨h1, fun _ => h2 (Or.inr (Or.inl c3))⟩
  · exact absurd (Or.inr (Or.inr c4)) c2
  · unfold sortShrink at hu
    cases hu
    exact ⟨by simp; omega, fun hs => by simp at hs⟩
  · simp only [sortHeapifyCheck, Option.bind_eq_some] at hu
    obtain ⟨l1, -, largest, -, hu⟩ := hu
    split_ifs at hu with b1
    · rw [Option.map_eq_some'] at hu
      obtain ⟨u, hu1, hu2⟩ := hu
      obtain ⟨e1, e2, e3, -⟩ := PrepareSwap_frame hu1
      cases hu2
      simp at e1 e3
      exact ⟨by simp [e1, e3, h1], fun hs => by simp at hs⟩
    · cases hu
      exact ⟨h1, fun hs => by simp at hs⟩
  · cases hu; exact ⟨h1, h2⟩

theorem SizeInv_apply {c : Cmd} {s t : State} (hc : c.apply s = some t) (h : SizeInv s) :
    SizeInv t := by
  cases c with
  | insert v m => cases hc; exact SizeInv_Insert s v m h
  | startSort => cases hc; exact SizeInv_StartSort s h
  | reset => cases hc; exact SizeInv_Reset s
  | tick => exact SizeInv_Update hc h
  | resize r => cases hc; exact SizeInv_SetRect s r h

theorem SizeInv_run (cmds : List Cmd) {s t : State} (hr : run cmds s = some t)
    (h : SizeInv s) : SizeInv t := by
  induction cmds generalizing s with
  | nil => cases hr; exact h
  | cons c cs ih =>
    simp only [run, Option.bind_eq_some] at hr
    obtain ⟨u, hu, hr⟩ := hr
    exact ih hr (SizeInv_apply hu h)

/-- Claim C9.  In every state a sequence of `Insert`, `StartSort`, `Reset`, resize and tick
messages leads to from the constructor's state, `heapSize` is at most the length of the
vector, and equals it whenever the phase is `IDLE`, `INSERT_CHECK` or `INSERT_SWAP`. -/
theorem heapSize_le_length (r : RECT) (s : State) (h : Reachable r s) :
    s.heapSize ≤ s.heap.length ∧
    ((s.state = .IDLE ∨ s.state = .INSERT_CHECK ∨ s.state = .INSERT_SWAP) →
      s.heapSize = s.heap.length) := by
  obtain ⟨cmds, hr⟩ := h
  exact SizeInv_run cmds hr (SizeInv_init r)

/-- Claim C9 at `pairShrunk`, a state in the middle of a sort with `heapSize = 1` and two
nodes. -/
theorem heapSize_le_length_witness :
    Reachable sampleRect pairShrunk ∧
    (pairShrunk.heapSize ≤ pairShrunk.heap.length ∧
    ((pairShrunk.state = .IDLE ∨ pairShrunk.state = .INSERT_CHECK ∨
        pairShrunk.state = .INSERT_SWAP) →
      pairShrunk.heapSize = pairShrunk.heap.length)) :=
  ⟨⟨sortPairCmds ++ [.tick, .tick], by decide!⟩,
    heapSize_le_length sampleRect pairShrunk ⟨sortPairCmds ++ [.tick, .tick], by decide!⟩⟩

/-! ## The heapsort hookup -/

/-- Claim C4, evaluated at its failing input.  After `Insert(5, max)`, one tick and
`StartSort`, the state is `singleSort`: phase `SORT_EXTRACT` with `compareIdx = -1`.  The next
tick takes the animation branch, which binds `heap[compareIdx]`: index -1 of a vector of
length 1. -/
theorem tick_after_startSort_out_of_bounds :
    run [.insert 5 true, .tick, .startSort] (init sampleRect) = some singleSort ∧
    singleSort.state = .SORT_EXTRACT ∧ singleSort.compareIdx = -1 ∧
    ¬ inBounds singleSort.heap singleSort.compareIdx ∧
    Update singleSort = none := by
  decide!

/-- Claim C10, evaluated at its failing input.  Three ticks after `sortPairCmds` the state is
`pairExtract`: phase `SORT_EXTRACT` with `heapSize = 1`.  The next tick takes the animation
branch and moves the phase to `SORT_SHRINK`, not `SORT_COMPLETED`; the tick after that
lowers `heapSize` to 0. -/
theorem extract_tick_skips_completion :
    run (sortPairCmds ++ [.tick, .tick, .tick]) (init sampleRect) = some pairExtract ∧
    pairExtract.state = .SORT_EXTRACT ∧ pairExtract.heapSize ≤ 1 ∧
    Update pairExtract
      = some { pairExtract with state := .SORT_SHRINK, animationProgress := 115 } ∧
    (ticks 2 pairExtract).map State.heapSize = some 0 := by
  decide!

/-! ## Which branch a tick takes -/

theorem Update_idle {s : State} (h : s.state = .IDLE ∨ s.state = .SORT_COMPLETED) :
    Update s = some s := by
  simp [Update, h]

theorem Update_swapPhase {s : State}
    (h : s.state = .INSERT_SWAP ∨ s.state = .SORT_HEAPIFY_SWAP ∨ s.state = .SORT_EXTRACT) :
    Update s = animate s := by
  have h1 : ¬ (s.state = .IDLE ∨ s.state = .SORT_COMPLETED) := by
    rcases h with h | h | h <;> simp [h]
  simp [Update, h1, h]

theorem Update_insertCheck {s : State} (h : s.state = .INSERT_CHECK) :
    Update s = insertCheck s := by
  simp [Update, h]

theorem Update_sortShrink {s : State} (h : s.state = .SORT_SHRINK) :
    Update s = sortShrink s := by
  simp [Update, h]

theorem Update_sortHeapifyCheck {s : State} (h : s.state = .SORT_HEAPIFY_CHECK) :
    Update s = sortHeapifyCheck s := by
  simp [Update, h]

/-! ## Sift-up keeps the heap property -/

theorem inOrder_trans {max : Bool} {a b c : Int} (h1 : inOrder max a b) (h2 : inOrder max b c) :
    inOrder max a c := by
  cases max <;> simp [inOrder] at * <;> omega

theorem inOrder_of_not {max : Bool} {a b : Int} (h : ¬ inOrder max a b) : inOrder max b a := by
  cases max <;> simp [inOrder] at * <;> omega

/-- Exchanging `c` with its out-of-order parent moves the one possible violation up. -/
theorem AlmostHeap_swap {max : Bool} {v w : Int → Int} {n c : Int}
    (h : AlmostHeap max v n c) (hc0 : 0 < c) (hcn : c < n)
    (hs : ¬ inOrder max (v ((c - 1) / 2)) (v c))
    (hw : ∀ i, 0 ≤ i → w i = if i = (c - 1) / 2 then v c else if i = c then v ((c - 1) / 2)
      else v i) :
    AlmostHeap max w n ((c - 1) / 2) := by
  obtain ⟨h1, h2⟩ := h
  have hp0 : 0 ≤ (c - 1) / 2 := by omega
  have hpc : (c - 1) / 2 < c := by omega
  have hup := inOrder_of_not hs
  constructor
  · intro i hi0 hin hne
    have hq0 : 0 ≤ (i - 1) / 2 := by omega
    rw [hw i (le_of_lt hi0), hw _ hq0, if_neg hne]
    by_cases hic : i = c
    · subst hic
      simpa using hup
    · rw [if_neg hic]
      by_cases hqp : (i - 1) / 2 = (c - 1) / 2
      · rw [if_pos hqp]
        have := h1 i hi0 hin hic
        rw [hqp] at this
        exact inOrder_trans hup this
      · rw [if_neg hqp]
        by_cases hqc : (i - 1) / 2 = c
        · rw [if_pos hqc]
          exact h2 i hi0 hin hqc hc0
        · rw [if_neg hqc]
          exact h1 i hi0 hin hic
  · intro i hi0 hin hpar hp
    have hpp0 : 0 ≤ ((c - 1) / 2 - 1) / 2 := by omega
    have hppne : ((c - 1) / 2 - 1) / 2 ≠ (c - 1) / 2 := by omega
    have hppc : ((c - 1) / 2 - 1) / 2 ≠ c := by omega
    have hip : i ≠ (c - 1) / 2 := by omega
    rw [hw i (le_of_lt hi0), hw _ hpp0, if_neg hppne, if_neg hppc, if_neg hip]
    have hgp := h1 ((c - 1) / 2) hp (by omega) (by omega)
    by_cases hic : i = c
    · rw [if_pos hic]
      exact hgp
    · rw [if_neg hic]
      have := h1 i hi0 hin hic
      rw [hpar] at this
      exact inOrder_trans hgp this

theorem AlmostHeap_congr {max : Bool} {v w : Int → Int} {n c : Int}
    (h : AlmostHeap max v n c) (hw : ∀ i, w i = v i) : AlmostHeap max w n c := by
  have : w = v := funext hw
  rw [this]; exact h

/-! ## Values after each step -/

theorem valAt_append_left (h l : List Node) (i : Int) (h0 : 0 ≤ i) (hl : i < h.length) :
    valAt (h ++ l) i = valAt h i := by
  have : i.toNat < h.length := by omega
  simp [valAt, nodeAt, List.getD_eq_getElem?_getD, List.getElem?_append_left this]

theorem valAt_modifyAt (h : List Node) (i j : Int) (f : Node → Node)
    (hf : ∀ n, (f n).value = n.value) :
    valAt (modifyAt h i f) j = valAt h j :=
  value_nodeAt_modifyAt h i j f hf

theorem valAt_mapIdx_relayout (r : RECT) (h : List Node) (i : Int) :
    valAt (h.mapIdx (relayoutNode r)) i = valAt h i := by
  simp only [valAt, nodeAt, List.getD_eq_getElem?_getD, List.getElem?_mapIdx]
  cases h[i.toNat]? <;> simp [relayoutNode, Node.new]

theorem valAt_swapNodes (h : List Node) (i j k : Int)
    (hi : inBounds h i) (hj : inBounds h j) (hk : 0 ≤ k) :
    valAt (swapNodes h i j) k
      = if k = j then valAt h i else if k = i then valAt h j else valAt h k := by
  unfold valAt
  rw [nodeAt_swapNodes h i j k hi hj hk]
  split_ifs <;> rfl

theorem PrepareSwap_valAt {s t : State} {i j : Int} (h : PrepareSwap s i j = some t) (k : Int) :
    valAt t.heap k = valAt s.heap k := by
  simp only [PrepareSwap] at h
  split_ifs at h
  cases h
  simp only
  rw [valAt_modifyAt, valAt_modifyAt]
  all_goals intro n; rfl

/-- What a defined animation tick does to the discrete state: either nothing (the nodes are
still moving) or the committed exchange. -/
theorem animate_discrete {s t : State} (h : animate s = some t) :
    inBounds s.heap s.currentIdx ∧ inBounds s.heap s.compareIdx ∧
    t.heap.length = s.heap.length ∧ t.heapSize = s.heapSize ∧ t.isMaxHeap = s.isMaxHeap ∧
    t.clientRect = s.clientRect ∧
    ((t.state = s.state ∧ t.currentIdx = s.currentIdx ∧ t.compareIdx = s.compareIdx ∧
        ∀ k, valAt t.heap k = valAt s.heap k) ∨
     (t.state = afterSwap s.state ∧ t.currentIdx = s.compareIdx ∧
        t.compareIdx = s.currentIdx ∧
        ∀ k, 0 ≤ k → valAt t.heap k
          = if k = s.compareIdx then valAt s.heap s.currentIdx
            else if k = s.currentIdx then valAt s.heap s.compareIdx else valAt s.heap k)) := by
  simp only [animate] at h
  split_ifs at h with b1 b2
  · cases h
    refine ⟨b1.1, b1.2, by simp, rfl, rfl, rfl, Or.inr ⟨rfl, rfl, rfl, ?_⟩⟩
    intro k hk
    simp only
    rw [valAt_swapNodes _ _ _ _ (by simpa [inBounds] using b1.1)
      (by simpa [inBounds] using b1.2) hk]
    simp only [valAt_modifyAt _ _ _ _ snap_value, valAt_modifyAt _ _ _ _ advance_value]
  · cases h
    refine ⟨b1.1, b1.2, by simp, rfl, rfl, rfl, Or.inl ⟨rfl, rfl, rfl, ?_⟩⟩
    intro k
    simp only [valAt_modifyAt _ _ _ _ advance_value]

theorem swapNeeded_iff (m : Bool) (a b : Int) :
    ((m = true ∧ a > b) ∨ (m = false ∧ a < b)) ↔ ¬ inOrder m b a := by
  cases m <;> simp [inOrder]

theorem tdiv_two_of_nonneg (a : Int) (h : 0 ≤ a) : a.tdiv 2 = a / 2 :=
  Int.tdiv_eq_ediv h (by decide)

theorem SiftInv_init (kind : Bool) (r : RECT) : SiftInv kind (init r) := by
  refine ⟨rfl, Or.inl ⟨rfl, ?_⟩⟩
  intro i h0 h1
  simp [init] at h1
  omega

theorem SiftInv_Insert {kind : Bool} {s : State} (v : Int) (h : SiftInv kind s) :
    SiftInv kind (Insert s v kind) := by
  obtain ⟨hsz, hcase⟩ := h
  rcases hcase with ⟨hst, hp⟩ | ⟨hst, hrest⟩ | ⟨hst, hrest⟩
  · obtain ⟨e1, e2, e3, e4, e5, e6⟩ := Insert_accepted s v kind (Or.inl hst)
    refine ⟨e2, Or.inr (Or.inl ⟨e6, e5, ?_, ?_⟩)⟩
    · rw [e4]
      constructor
      · omega
      · rw [e1]; simp
    · rw [e4, e1]
      constructor
      · intro i h0 h1 hne
        simp only [List.length_append, List.length_singleton, Nat.cast_add, Nat.cast_one] at h1
        have hlt : i < s.heap.length := by omega
        rw [valAt_append_left _ _ _ (by omega) (by omega),
          valAt_append_left _ _ _ (le_of_lt h0) hlt]
        exact hp i h0 (by omega)
      · intro i h0 h1 hpar _
        simp only [List.length_append, List.length_singleton, Nat.cast_add, Nat.cast_one] at h1
        omega
  · rw [Insert_busy s v kind (by simp [hst]) (by simp [hst])]
    exact ⟨hsz, Or.inr (Or.inl ⟨hst, hrest⟩)⟩
  · rw [Insert_busy s v kind (by simp [hst]) (by simp [hst])]
    exact ⟨hsz, Or.inr (Or.inr ⟨hst, hrest⟩)⟩

theorem SiftInv_Update {kind : Bool} {s t : State} (hu : Update s = some t)
    (h : SiftInv kind s) : SiftInv kind t := by
  obtain ⟨hsz, hcase⟩ := h
  rcases hcase with ⟨hst, hp⟩ | ⟨hst, hmax, hin, hah⟩ | ⟨hst, hmax, hin, hc0, hcmp, hah, hstrict⟩
  · rw [Update_idle (Or.inl hst)] at hu
    cases hu
    exact ⟨hsz, Or.inl ⟨hst, hp⟩⟩
  · rw [Update_insertCheck hst] at hu
    simp only [insertCheck] at hu
    split_ifs at hu with b1 b2 b3
    · cases hu
      refine ⟨by simpa using hsz, Or.inl ⟨by simp, ?_⟩⟩
      intro i h0 h1
      simp only [RecalculateLayout, if_true, valAt_mapIdx_relayout]
      simp only [RecalculateLayout_heapSize] at h1
      exact hah.1 i h0 (by omega) (by omega)
    · rw [Option.map_eq_some'] at hu
      obtain ⟨u, hu1, hu2⟩ := hu
      obtain ⟨e1, e2, e3, e4, e5, e6, e7⟩ := PrepareSwap_frame hu1
      have ev := PrepareSwap_valAt hu1
      have hpos : 0 < s.currentIdx := by have := hin.1; omega
      have hpar : (s.currentIdx - 1).tdiv 2 = (s.currentIdx - 1) / 2 :=
        tdiv_two_of_nonneg _ (by omega)
      cases hu2
      simp only at e1 e3 e4 e5 e6 ev
      refine ⟨by simp [e1, e3, hsz], Or.inr (Or.inr ⟨rfl, by simp [e6, hmax], ?_, ?_, ?_, ?_, ?_⟩)⟩
      · simpa [inBounds, e1, e4] using hin
      · simpa [e4] using hpos
      · simp [e4, e5, hpar]
      · simp only [e1, e4]
        exact AlmostHeap_congr hah ev
      · simp only [e4, e5, ev]
        rw [← swapNeeded_iff, ← hmax]
        exact b3
    · cases hu
      refine ⟨hsz, Or.inl ⟨rfl, ?_⟩⟩
      intro i h0 h1
      simp only at h1 ⊢
      by_cases hic : i = s.currentIdx
      · have hpos : 0 < s.currentIdx := by omega
        have hpar : (s.currentIdx - 1).tdiv 2 = (s.currentIdx - 1) / 2 :=
          tdiv_two_of_nonneg _ (by omega)
        rw [hpar, ← valAt, ← valAt, hmax, swapNeeded_iff, not_not] at b3
        rw [hic]; exact b3
      · exact hah.1 i h0 (by omega) hic
  · rw [Update_swapPhase (Or.inl hst)] at hu
    obtain ⟨i1, i2, e1, e2, e3, _, hmove⟩ := animate_discrete hu
    rcases hmove with ⟨f1, f2, f3, f4⟩ | ⟨f1, f2, f3, f4⟩
    · refine ⟨by simp [e1, e2, hsz], Or.inr (Or.inr ⟨by simp [f1, hst], by simp [e3, hmax],
        ?_, ?_, ?_, ?_, ?_⟩)⟩
      · simpa [inBounds, e1, f2] using hin
      · simpa [f2] using hc0
      · simp [f2, f3, hcmp]
      · simp only [e1, f2]
        exact AlmostHeap_congr hah f4
      · simpa only [f2, f3, f4] using hstrict
    · refine ⟨by simp [e1, e2, hsz], Or.inr (Or.inl ⟨by simp [f1, hst, afterSwap],
        by simp [e3, hmax], ?_, ?_⟩)⟩
      · simpa [inBounds, e1, f2] using i2
      · rw [e1, f2, hcmp]
        rw [hcmp] at hstrict
        refine AlmostHeap_swap hah hc0 hin.2 hstrict ?_
        intro k hk
        rw [f4 k hk, hcmp]

theorem SiftInv_SetRect {kind : Bool} {s : State} (r : RECT) (h : SiftInv kind s) :
    SiftInv kind (SetRect s r) := by
  obtain ⟨hsz, hcase⟩ := h
  unfold SetRect RecalculateLayout
  by_cases hst : s.state = .IDLE
  · rcases hcase with ⟨-, hp⟩ | ⟨h1, -⟩ | ⟨h1, -⟩
    · simp only [hst, if_true]
      refine ⟨by simpa using hsz, Or.inl ⟨rfl, ?_⟩⟩
      intro i h0 h1
      simp only [valAt_mapIdx_relayout]
      exact hp i h0 h1
    · rw [hst] at h1; cases h1
    · rw [hst] at h1; cases h1
  · simp only [hst, if_false]
    exact ⟨hsz, hcase⟩

theorem SiftInv_run {kind : Bool} (cmds : List Cmd) {s t : State}
    (hc : cmds.all (insertSession kind) = true) (hr : run cmds s = some t)
    (h : SiftInv kind s) : SiftInv kind t := by
  induction cmds generalizing s with
  | nil => cases hr; exact h
  | cons c cs ih =>
    simp only [List.all_cons, Bool.and_eq_true] at hc
    simp only [run, Option.bind_eq_some] at hr
    obtain ⟨u, hu, hr⟩ := hr
    refine ih hc.2 hr ?_
    cases c with
    | insert v m =>
      have : m = kind := by simpa [insertSession] using hc.1
      subst this
      cases hu
      exact SiftInv_Insert v h
    | startSort => simp [insertSession] at hc
    | reset => simp [insertSession] at hc
    | tick => exact SiftInv_Update hu h
    | resize r => cases hu; exact SiftInv_SetRect r h

/-- Claim C1.  Start from the constructor's state and apply any sequence of `Insert(v, kind)`
messages of one kind, interleaved with ticks (and resizes).  Whenever the resulting state is
in phase `IDLE`, `heapSize` is the length of the vector and the values at `[0, heapSize)`
satisfy the heap property of that kind: each index `i > 0` is in order with its parent
`(i - 1) / 2` (parent ≥ child for max, parent ≤ child for min). -/
theorem insert_session_idle_is_heap (r : RECT) (kind : Bool) (cmds : List Cmd) (s : State)
    (hc : cmds.all (insertSession kind) = true)
    (hr : run cmds (init r) = some s) (hidle : s.state = .IDLE) :
    s.heapSize = s.heap.length ∧
    ∀ i : Int, 0 < i → i < s.heapSize →
      inOrder kind (valAt s.heap ((i - 1) / 2)) (valAt s.heap i) := by
  obtain ⟨hsz, hcase⟩ := SiftInv_run cmds hc hr (SiftInv_init kind r)
  rcases hcase with ⟨-, hp⟩ | ⟨h1, -⟩ | ⟨h1, -⟩
  · exact ⟨hsz, hp⟩
  · rw [hidle] at h1; cases h1
  · rw [hidle] at h1; cases h1

/-- Claim C1 at the session `build538` on the sample surface, which ends in `heap835` with the
values `[8, 3, 5]`. -/
theorem insert_session_idle_is_heap_witness :
    build538.all (insertSession true) = true ∧
    run build538 (init sampleRect) = some heap835 ∧ heap835.state = .IDLE ∧
    (heap835.heapSize = heap835.heap.length ∧
      ∀ i : Int, 0 < i → i < heap835.heapSize →
        inOrder true (valAt heap835.heap ((i - 1) / 2)) (valAt heap835.heap i)) :=
  ⟨by decide, by decide!, rfl,
    insert_session_idle_is_heap sampleRect true build538 heap835 (by decide) (by decide!) rfl⟩

/-! ## A started sort never completes -/

theorem valAt_eq_values (l : List Node) (j : Int) :
    valAt l j = (l.map Node.value).getD j.toNat 0 := by
  simp only [valAt, nodeAt, List.getD_eq_getElem?_getD, List.getElem?_map]
  cases l[j.toNat]? <;> simp [Node.new]

theorem values_ext {a b : List Node} (hl : a.length = b.length)
    (hv : ∀ k : Int, 0 ≤ k → valAt a k = valAt b k) :
    a.map Node.value = b.map Node.value := by
  apply List.ext_getElem?
  intro k
  have := hv k (by omega)
  rw [valAt_eq_values, valAt_eq_values] at this
  simp only [Int.toNat_ofNat, List.getD_eq_getElem?_getD, List.getElem?_map] at this
  simp only [List.getElem?_map]
  by_cases hk : k < a.length
  · have hk2 : k < b.length := hl ▸ hk
    simp only [List.getElem?_eq_getElem hk, List.getElem?_eq_getElem hk2, Option.map_some',
      Option.getD_some] at this ⊢
    rw [this]
  · have hk2 : ¬ k < b.length := hl ▸ hk
    simp [List.getElem?_eq_none (not_lt.mp hk), List.getElem?_eq_none (not_lt.mp hk2)]

theorem animate_defined {s : State} (h1 : inBounds s.heap s.currentIdx)
    (h2 : inBounds s.heap s.compareIdx) : ∃ t, animate s = some t := by
  simp only [animate, h1, h2, and_self, if_true]
  split_ifs
  · exact ⟨_, rfl⟩
  · exact ⟨_, rfl⟩

theorem SortLoop_step {t : State} (h : SortLoop t) : ∃ u, Update t = some u ∧ SortLoop u := by
  obtain ⟨hv, hcmp, hcase⟩ := h
  have hlen : t.heap.length = 3 := by
    have := congrArg List.length hv
    simpa [values] using this
  rcases hcase with ⟨hst, hsz⟩ | ⟨hst, hsz, hcur⟩ | ⟨hst, hsz, hcur⟩
  · refine ⟨_, Update_sortShrink hst, hv, hcmp, Or.inr (Or.inl ⟨rfl, ?_, rfl⟩)⟩
    simp only; omega
  · refine ⟨{ t with state := .SORT_EXTRACT }, ?_, hv, hcmp, Or.inr (Or.inr ⟨rfl, hsz, hcur⟩)⟩
    rw [Update_sortHeapifyCheck hst]
    have v0 : (nodeAt t.heap 0).value = 5 := by
      have := valAt_eq_values t.heap 0
      rw [valAt] at this; rw [this]; unfold values at hv; rw [hv]; rfl
    have v1 : (nodeAt t.heap 1).value = 3 := by
      have := valAt_eq_values t.heap 1
      rw [valAt] at this; rw [this]; unfold values at hv; rw [hv]; rfl
    have p1 : pickLarger t 1 0 = some 0 := by
      simp only [pickLarger, inBounds, hlen, v0, v1]
      split_ifs <;> simp_all
    have p2 : pickLarger t 2 0 = some 0 := by
      simp only [pickLarger]
      rw [if_neg (by omega)]
    simp [sortHeapifyCheck, hcur, p1, p2]
  · have hb : inBounds t.heap 0 := by simp [inBounds, hlen]
    obtain ⟨u, hu⟩ := animate_defined (s := t) (by rw [hcur]; exact hb) (by rw [hcmp]; exact hb)
    refine ⟨u, by rw [Update_swapPhase (Or.inr (Or.inr hst))]; exact hu, ?_⟩
    obtain ⟨-, -, e1, e2, -, -, hmove⟩ := animate_discrete hu
    rcases hmove with ⟨f1, f2, f3, f4⟩ | ⟨f1, f2, f3, f4⟩
    · refine ⟨?_, by rw [f3, hcmp], Or.inr (Or.inr ⟨by rw [f1, hst], by rw [e2]; exact hsz,
        by rw [f2, hcur]⟩)⟩
      rw [← hv]
      exact values_ext e1 (fun k _ => f4 k)
    · refine ⟨?_, by rw [f3, hcur], Or.inl ⟨by rw [f1, hst]; rfl, by rw [e2]; omega⟩⟩
      rw [← hv]
      refine values_ext e1 (fun k hk => ?_)
      rw [f4 k hk, hcur, hcmp]
      split_ifs with c1 <;> simp [c1]

theorem SortLoop_ticks (n : Nat) {t : State} (h : SortLoop t) :
    ∃ u, ticks n t = some u ∧ SortLoop u := by
  induction n generalizing t with
  | zero => exact ⟨t, rfl, h⟩
  | succ n ih =>
    obtain ⟨u, hu, hl⟩ := SortLoop_step h
    obtain ⟨w, hw, hlw⟩ := ih hl
    exact ⟨w, by simp [ticks, hu, hw], hlw⟩

/-- Claim C2, evaluated at its failing input.  `build538` builds the max-heap `[8, 3, 5]` and
leaves it settled in `IDLE`.  After `StartSort`, every number of ticks is defined and leaves a
phase other than `SORT_COMPLETED`; from the first tick on the values are `[5, 3, 8]`, which is
not ascending.  The heap `[8, 5, 3]` of the example, built by inserting 8, 5 and 3, fares no
better: the first tick after `StartSort` indexes the vector out of bounds. -/
theorem startSort_never_completes :
    run build538 (init sampleRect) = some heap835 ∧ values heap835 = [8, 3, 5] ∧
    (∀ n, ∃ t, ticks n (StartSort heap835) = some t ∧ t.state ≠ .SORT_COMPLETED ∧
      (1 ≤ n → values t = [5, 3, 8])) ∧
    (run build853 (init sampleRect)).map values = some [8, 5, 3] ∧
    (run build853 (init sampleRect)).bind (fun s => Update (StartSort s)) = none := by
  refine ⟨by decide!, by decide, ?_, by decide!, by decide!⟩
  intro n
  cases n with
  | zero => exact ⟨StartSort heap835, rfl, by decide, by omega⟩
  | succ n =>
    have h1 : ∃ s1, Update (StartSort heap835) = some s1 ∧ SortLoop s1 := by
      refine ⟨{ StartSort heap835 with
          heap := [⟨5, 672, 145, 672, 145⟩, ⟨3, 336, 145, 336, 145⟩, ⟨8, 504, 85, 504, 85⟩],
          animationProgress := 110, currentIdx := 2, compareIdx := 0,
          state := .SORT_SHRINK }, by decide!, by decide, rfl, Or.inl ⟨rfl, by decide⟩⟩
    obtain ⟨s1, hs1, hl1⟩ := h1
    obtain ⟨u, hu, hl⟩ := SortLoop_ticks n hl1
    refine ⟨u, by simp [ticks, hs1, hu], ?_, fun _ => hl.1⟩
    rcases hl.2.2 with ⟨h, -⟩ | ⟨h, -⟩ | ⟨h, -⟩ <;> simp [h]

/-! ## The animation converges -/

theorem moveTowards_self (t : ℚ) : moveTowards t t = t := by
  simp [moveTowards]

theorem moveTowards_iterate_self (t : ℚ) (n : Nat) :
    (fun c => moveTowards c t)^[n] t = t :=
  Function.iterate_fixed (f := fun c => moveTowards c t) (moveTowards_self t) n

/-- Once `(4/5)^n` times the distance is below the snap threshold, `n + 1` steps reach the
target. -/
theorem moveTowards_reaches (t : ℚ) (n : Nat) :
    ∀ c : ℚ, (4 / 5 : ℚ) ^ n * |t - c| < 2 → (fun c => moveTowards c t)^[n + 1] c = t := by
  induction n with
  | zero =>
    intro c h
    simp only [pow_zero, one_mul] at h
    simp [moveTowards, h]
  | succ n ih =>
    intro c h
    rw [Function.iterate_succ_apply]
    by_cases hc : |t - c| < 2
    · have : moveTowards c t = t := by simp [moveTowards, hc]
      rw [this]
      exact moveTowards_iterate_self t (n + 1)
    · have hm : moveTowards c t = c + (t - c) * (1 / 5) := by simp [moveTowards, hc]
      rw [hm]
      apply ih
      have e : t - (c + (t - c) * (1 / 5)) = (4 / 5) * (t - c) := by ring
      rw [e, abs_mul, abs_of_pos (by norm_num : (0 : ℚ) < 4 / 5), ← mul_assoc, ← pow_succ]
      exact h

theorem moveTowards_converges (t c : ℚ) :
    ∃ N, ∀ m, N ≤ m → (fun c => moveTowards c t)^[m] c = t := by
  obtain ⟨n, hn⟩ := exists_pow_lt_of_lt_one (show (0 : ℚ) < 2 / (|t - c| + 1) by positivity)
    (show (4 / 5 : ℚ) < 1 by norm_num)
  have hlt : (4 / 5 : ℚ) ^ n * |t - c| < 2 := by
    have h1 : (0 : ℚ) < |t - c| + 1 := by positivity
    have h2 : (4 / 5 : ℚ) ^ n * (|t - c| + 1) < 2 := by
      rwa [lt_div_iff₀ h1] at hn
    have h3 : (0 : ℚ) < (4 / 5) ^ n := by positivity
    nlinarith [abs_nonneg (t - c)]
  refine ⟨n + 1, fun m hm => ?_⟩
  obtain ⟨d, rfl⟩ := Nat.exists_eq_add_of_le hm
  rw [Nat.add_comm, Function.iterate_add_apply, moveTowards_reaches t n c hlt]
  exact moveTowards_iterate_self t d

theorem advance_iterate (n : Node) (k : Nat) :
    advance^[k] n
      = { n with x := (fun c => moveTowards c n.targetX)^[k] n.x,
                 y := (fun c => moveTowards c n.targetY)^[k] n.y } := by
  induction k with
  | zero => rfl
  | succ k ih =>
    rw [Function.iterate_succ_apply', ih]
    simp [advance, Function.iterate_succ_apply']

/-- Every node comes to rest after finitely many `advance` steps and stays there. -/
theorem advance_converges (n : Node) : ∃ N, ∀ m, N ≤ m → Rest (advance^[m] n) := by
  obtain ⟨N1, h1⟩ := moveTowards_converges n.targetX n.x
  obtain ⟨N2, h2⟩ := moveTowards_converges n.targetY n.y
  refine ⟨max N1 N2, fun m hm => ?_⟩
  rw [advance_iterate]
  exact ⟨h1 m (le_trans (le_max_left _ _) hm), h2 m (le_trans (le_max_right _ _) hm)⟩

theorem Rest_arrived {n : Node} (h : Rest n) : arrived n := by
  simp [arrived, h.1, h.2]

theorem nodeAt_twice_left (h : List Node) (i j : Int) (f : Node → Node)
    (hi : inBounds h i) (hj : inBounds h j) :
    nodeAt (modifyAt (modifyAt h i f) j f) i
      = if i = j then f (f (nodeAt h i)) else f (nodeAt h i) := by
  by_cases e : i = j
  · subst e
    rw [if_pos rfl, nodeAt_modifyAt_same _ _ _ ((inBounds_modifyAt h i i f).2 hi),
      nodeAt_modifyAt_same _ _ _ hi]
  · rw [if_neg e, nodeAt_modifyAt_ne _ _ _ _ hj.1 hi.1 (Ne.symm e),
      nodeAt_modifyAt_same _ _ _ hi]

theorem nodeAt_twice_right (h : List Node) (i j : Int) (f : Node → Node)
    (hi : inBounds h i) (hj : inBounds h j) :
    nodeAt (modifyAt (modifyAt h i f) j f) j
      = if i = j then f (f (nodeAt h j)) else f (nodeAt h j) := by
  rw [nodeAt_modifyAt_same _ _ _ ((inBounds_modifyAt h i j f).2 hj)]
  by_cases e : i = j
  · subst e
    rw [if_pos rfl, nodeAt_modifyAt_same _ _ _ hi]
  · rw [if_neg e, nodeAt_modifyAt_ne _ _ _ _ hi.1 hj.1 e]

theorem advance_of_Rest {n : Node} (h : Rest n) : advance n = n := by
  cases n with
  | mk v x y tx ty =>
    obtain ⟨h1, h2⟩ := h
    simp only at h1 h2
    subst h1 h2
    simp [advance, moveTowards_self]

theorem Rest_iterate_succ {n : Node} {N : Nat} (h : Rest (advance^[N] n)) :
    Rest (advance^[N + 1] n) := by
  rw [Function.iterate_succ_apply']
  rw [advance_of_Rest h]; exact h

/-- One or two more `advance` steps on a node use up one unit of the bound. -/
theorem Rest_after_tick {n : Node} {N : Nat} (h : Rest (advance^[N + 1] n)) (c : Prop)
    [Decidable c] :
    Rest (advance^[N] (if c then advance (advance n) else advance n)) := by
  split_ifs
  · have := Rest_iterate_succ h
    rwa [Function.iterate_succ_apply, Function.iterate_succ_apply] at this
  · rwa [Function.iterate_succ_apply] at h

theorem afterSwap_ne {st : AppState}
    (h : st = .INSERT_SWAP ∨ st = .SORT_HEAPIFY_SWAP ∨ st = .SORT_EXTRACT) :
    afterSwap st ≠ st ∧ afterSwap st ≠ .IDLE := by
  rcases h with h | h | h <;> subst h <;> simp [afterSwap]

theorem animate_arrived {s t : State} (h : animate s = some t)
    (ha : arrived (nodeAt (movedHeap s) s.currentIdx) ∧
      arrived (nodeAt (movedHeap s) s.compareIdx)) :
    t.state = afterSwap s.state := by
  simp only [animate] at h
  split_ifs at h with b1 b2
  · cases h; rfl
  · exact absurd ha b2

theorem animate_moving {s : State} (h1 : inBounds s.heap s.currentIdx)
    (h2 : inBounds s.heap s.compareIdx)
    (ha : ¬ (arrived (nodeAt (movedHeap s) s.currentIdx) ∧
      arrived (nodeAt (movedHeap s) s.compareIdx))) :
    animate s = some { s with
      animationProgress := s.animationProgress + ANIMATION_STEP_INCREMENT,
      heap := movedHeap s } := by
  unfold movedHeap at ha
  simp only [animate, h1, h2, and_self, if_true]
  rw [if_neg ha]
  rfl

theorem settle_step {s u : State} (hs : s.state ≠ .IDLE) (hu : Update s = some u) (m : Nat) :
    settle (m + 1) s = settle m u := by
  simp [settle, hs, hu]

/-- A swap-bearing phase with both indices in bounds commits its exchange after finitely many
ticks: the phase advances, the index variables are exchanged, and the two values have traded
places. -/
theorem animation_settles (N : Nat) : ∀ s : State,
    (s.state = .INSERT_SWAP ∨ s.state = .SORT_HEAPIFY_SWAP ∨ s.state = .SORT_EXTRACT) →
    inBounds s.heap s.currentIdx → inBounds s.heap s.compareIdx →
    Rest (advance^[N] (nodeAt (movedHeap s) s.currentIdx)) →
    Rest (advance^[N] (nodeAt (movedHeap s) s.compareIdx)) →
    ∃ k t, ticks (k + 1) s = some t ∧ (∀ m, settle (k + 1 + m) s = settle m t) ∧
      t.state = afterSwap s.state ∧ t.currentIdx = s.compareIdx ∧
      t.compareIdx = s.currentIdx ∧ t.heap.length = s.heap.length ∧
      t.heapSize = s.heapSize ∧ t.isMaxHeap = s.isMaxHeap ∧ t.clientRect = s.clientRect ∧
      ∀ i, 0 ≤ i → valAt t.heap i
        = if i = s.compareIdx then valAt s.heap s.currentIdx
          else if i = s.currentIdx then valAt s.heap s.compareIdx else valAt s.heap i := by
  induction N with
  | zero =>
    intro s hst h1 h2 r1 r2
    obtain ⟨t, ht⟩ := animate_defined h1 h2
    have hstate := animate_arrived ht ⟨Rest_arrived r1, Rest_arrived r2⟩
    have hU : Update s = some t := by rw [Update_swapPhase hst]; exact ht
    have hne : s.state ≠ .IDLE := by rcases hst with h | h | h <;> simp [h]
    obtain ⟨-, -, e1, e2, e3, e4, hmove⟩ := animate_discrete ht
    rcases hmove with ⟨f1, -⟩ | ⟨f1, f2, f3, f4⟩
    · exact absurd (f1.symm.trans hstate) (Ne.symm (afterSwap_ne hst).1)
    · refine ⟨0, t, by simp [ticks, hU], fun m => ?_, f1, f2, f3, e1, e2, e3, e4, f4⟩
      rw [Nat.zero_add, Nat.add_comm]
      exact settle_step hne hU m
  | succ N ih =>
    intro s hst h1 h2 r1 r2
    have hne : s.state ≠ .IDLE := by rcases hst with h | h | h <;> simp [h]
    by_cases ha : arrived (nodeAt (movedHeap s) s.currentIdx) ∧
        arrived (nodeAt (movedHeap s) s.compareIdx)
    · obtain ⟨t, ht⟩ := animate_defined h1 h2
      have hstate := animate_arrived ht ha
      have hU : Update s = some t := by rw [Update_swapPhase hst]; exact ht
      obtain ⟨-, -, e1, e2, e3, e4, hmove⟩ := animate_discrete ht
      rcases hmove with ⟨f1, -⟩ | ⟨f1, f2, f3, f4⟩
      · exact absurd (f1.symm.trans hstate) (Ne.symm (afterSwap_ne hst).1)
      · refine ⟨0, t, by simp [ticks, hU], fun m => ?_, f1, f2, f3, e1, e2, e3, e4, f4⟩
        rw [Nat.zero_add, Nat.add_comm]
        exact settle_step hne hU m
    · have hmv := animate_moving h1 h2 ha
      have hU : Update s = some { s with
          animationProgress := s.animationProgress + ANIMATION_STEP_INCREMENT,
          heap := movedHeap s } := by rw [Update_swapPhase hst]; exact hmv
      have b1 : inBounds (movedHeap s) s.currentIdx := by
        simpa [movedHeap, inBounds] using h1
      have b2 : inBounds (movedHeap s) s.compareIdx := by
        simpa [movedHeap, inBounds] using h2
      obtain ⟨k, t, hk, hsettle, g1, g2, g3, g4, g5, g6, g7, g8⟩ :=
        ih { s with animationProgress := s.animationProgress + ANIMATION_STEP_INCREMENT,
                    heap := movedHeap s } hst b1 b2
          (by
            show Rest (advance^[N] (nodeAt (modifyAt (modifyAt (movedHeap s) s.currentIdx
              advance) s.compareIdx advance) s.currentIdx))
            rw [nodeAt_twice_left _ _ _ _ b1 b2]
            have := Rest_after_tick r1 (s.currentIdx = s.compareIdx)
            convert this using 2)
          (by
            show Rest (advance^[N] (nodeAt (modifyAt (modifyAt (movedHeap s) s.currentIdx
              advance) s.compareIdx advance) s.compareIdx))
            rw [nodeAt_twice_right _ _ _ _ b1 b2]
            have := Rest_after_tick r2 (s.currentIdx = s.compareIdx)
            convert this using 2)
      have hval : ∀ i, valAt (movedHeap s) i = valAt s.heap i := by
        intro i
        simp only [movedHeap, valAt_modifyAt _ _ _ _ advance_value]
      refine ⟨k + 1, t, by simp [ticks, hU]; exact hk, fun m => ?_, g1, g2, g3, ?_, g5, g6, g7,
        ?_⟩
      · have : k + 1 + 1 + m = (k + 1 + m) + 1 := by omega
        rw [this, settle_step hne hU]
        exact hsettle m
      · simpa [movedHeap] using g4
      · intro i hi
        have := g8 i hi
        simpa only [hval] using this

/-- The same, the bound on the number of ticks taken from `advance_converges`. -/
theorem animation_commits {s : State}
    (hst : s.state = .INSERT_SWAP ∨ s.state = .SORT_HEAPIFY_SWAP ∨ s.state = .SORT_EXTRACT)
    (h1 : inBounds s.heap s.currentIdx) (h2 : inBounds s.heap s.compareIdx) :
    ∃ k t, ticks (k + 1) s = some t ∧ (∀ m, settle (k + 1 + m) s = settle m t) ∧
      t.state = afterSwap s.state ∧ t.currentIdx = s.compareIdx ∧
      t.compareIdx = s.currentIdx ∧ t.heap.length = s.heap.length ∧
      t.heapSize = s.heapSize ∧ t.isMaxHeap = s.isMaxHeap ∧ t.clientRect = s.clientRect ∧
      ∀ i, 0 ≤ i → valAt t.heap i
        = if i = s.compareIdx then valAt s.heap s.currentIdx
          else if i = s.currentIdx then valAt s.heap s.compareIdx else valAt s.heap i := by
  obtain ⟨N1, r1⟩ := advance_converges (nodeAt (movedHeap s) s.currentIdx)
  obtain ⟨N2, r2⟩ := advance_converges (nodeAt (movedHeap s) s.compareIdx)
  exact animation_settles (max N1 N2) s hst h1 h2 (r1 _ (le_max_left _ _))
    (r2 _ (le_max_right _ _))

/-! ## Sift-up, one round at a time -/

theorem value_nodeAt (h : List Node) (i : Int) : (nodeAt h i).value = valAt h i := rfl

/-- What the `INSERT_CHECK` tick does to the discrete state. -/
theorem insertCheck_discrete {s : State} (hst : s.state = .INSERT_CHECK)
    (hb : inBounds s.heap s.currentIdx) :
    ∃ t, Update s = some t ∧ t.heap.length = s.heap.length ∧ t.heapSize = s.heapSize ∧
      t.isMaxHeap = s.isMaxHeap ∧ t.clientRect = s.clientRect ∧
      t.currentIdx = s.currentIdx ∧ (∀ k, valAt t.heap k = valAt s.heap k) ∧
      (if s.currentIdx = 0 ∨
          inOrder s.isMaxHeap (valAt s.heap ((s.currentIdx - 1) / 2)) (valAt s.heap s.currentIdx)
        then t.state = .IDLE
        else t.state = .INSERT_SWAP ∧ t.compareIdx = (s.currentIdx - 1) / 2) := by
  rw [Update_insertCheck hst]
  simp only [insertCheck]
  by_cases h0 : s.currentIdx = 0
  · rw [if_pos h0]
    refine ⟨_, rfl, by simp, by simp, ?_, ?_, ?_, ?_, ?_⟩
    · simp [RecalculateLayout]
    · simp [RecalculateLayout]
    · simp [RecalculateLayout, h0]
    · intro k; simp [RecalculateLayout, valAt_mapIdx_relayout]
    · simp [h0]
  · rw [if_neg h0]
    have hpos : 0 < s.currentIdx := by have := hb.1; omega
    have hpar : (s.currentIdx - 1).tdiv 2 = (s.currentIdx - 1) / 2 :=
      tdiv_two_of_nonneg _ (by omega)
    have hpb : inBounds s.heap ((s.currentIdx - 1) / 2) := by
      have := hb.2
      constructor <;> omega
    rw [hpar, if_pos ⟨hb, hpb⟩]
    simp only [value_nodeAt, swapNeeded_iff]
    by_cases hord : inOrder s.isMaxHeap (valAt s.heap ((s.currentIdx - 1) / 2))
        (valAt s.heap s.currentIdx)
    · rw [if_neg (not_not.mpr hord)]
      exact ⟨_, rfl, rfl, rfl, rfl, rfl, rfl, fun _ => rfl, by simp [hord]⟩
    · rw [if_pos hord]
      have hps : ∃ u, PrepareSwap { s with compareIdx := (s.currentIdx - 1) / 2 } s.currentIdx
          ((s.currentIdx - 1) / 2) = some u := by
        simp only [PrepareSwap]
        rw [if_pos ⟨hb, hpb⟩]
        exact ⟨_, rfl⟩
      obtain ⟨u, hu⟩ := hps
      obtain ⟨e1, e2, e3, e4, e5, e6, e7⟩ := PrepareSwap_frame hu
      have ev := PrepareSwap_valAt hu
      rw [hu]
      refine ⟨_, rfl, e1, e3, e6, e7, e4, ev, ?_⟩
      rw [if_neg (by simp [h0, hord])]
      exact ⟨rfl, e5⟩

theorem values_eq_range (l : List Node) :
    l.map Node.value = (List.range l.length).map (fun i : Nat => valAt l (i : Int)) := by
  apply List.ext_getElem?
  intro k
  simp only [List.getElem?_map, List.getElem?_range, valAt_eq_values, Int.toNat_ofNat,
    List.getD_eq_getElem?_getD]
  by_cases hk : k < l.length
  · simp [List.getElem?_range hk, List.getElem?_eq_getElem hk]
  · have h1 : l[k]? = none := List.getElem?_eq_none (not_lt.mp hk)
    have h2 : (List.range l.length)[k]? = none :=
      List.getElem?_eq_none (by simpa using not_lt.mp hk)
    simp [h1, h2]

/-- The last round of a sift-up: the inserted value is at the root or in order with its
parent, and one tick returns to `IDLE` with the values unchanged. -/
theorem sift_final {s : State} (hst : s.state = .INSERT_CHECK)
    (hb : inBounds s.heap s.currentIdx)
    (hord : s.currentIdx = 0 ∨
      inOrder s.isMaxHeap (valAt s.heap ((s.currentIdx - 1) / 2)) (valAt s.heap s.currentIdx)) :
    ∃ t, settle 1 s = some t ∧ t.state = .IDLE ∧ values t = values s := by
  obtain ⟨t, hU, e1, -, -, -, -, ev, hphase⟩ := insertCheck_discrete hst hb
  rw [if_pos hord] at hphase
  refine ⟨t, ?_, hphase, values_ext e1 (fun k _ => ev k)⟩
  have hne : s.state ≠ .IDLE := by simp [hst]
  rw [settle_step hne hU 0]
  simp [settle, hphase]

/-- A round of a sift-up that exchanges: the inserted value is out of order with its parent;
after finitely many ticks the phase is `INSERT_CHECK` again, one level up, the two values
exchanged. -/
theorem sift_round {s : State} (hst : s.state = .INSERT_CHECK)
    (hb : inBounds s.heap s.currentIdx) (h0 : s.currentIdx ≠ 0)
    (hord : ¬ inOrder s.isMaxHeap (valAt s.heap ((s.currentIdx - 1) / 2))
      (valAt s.heap s.currentIdx)) :
    ∃ k t, (∀ m, settle (k + m) s = settle m t) ∧ t.state = .INSERT_CHECK ∧
      t.currentIdx = (s.currentIdx - 1) / 2 ∧ t.isMaxHeap = s.isMaxHeap ∧
      t.heap.length = s.heap.length ∧
      ∀ i, 0 ≤ i → valAt t.heap i
        = if i = (s.currentIdx - 1) / 2 then valAt s.heap s.currentIdx
          else if i = s.currentIdx then valAt s.heap ((s.currentIdx - 1) / 2)
          else valAt s.heap i := by
  obtain ⟨u, hU, e1, -, e3, -, e5, ev, hphase⟩ := insertCheck_discrete hst hb
  rw [if_neg (by simp [h0, hord])] at hphase
  obtain ⟨p1, p2⟩ := hphase
  have hpos : 0 < s.currentIdx := by have := hb.1; omega
  have b1 : inBounds u.heap u.currentIdx := by
    simpa [inBounds, e1, e5] using hb
  have b2 : inBounds u.heap u.compareIdx := by
    have := hb.2
    rw [p2]; constructor
    · omega
    · rw [e1]; omega
  obtain ⟨k, t, -, hsettle, g1, g2, -, g4, -, g6, -, g8⟩ :=
    animation_commits (Or.inl p1) b1 b2
  have hne : s.state ≠ .IDLE := by simp [hst]
  refine ⟨k + 1 + 1, t, fun m => ?_, by rw [g1, p1]; rfl, by rw [g2, p2], by rw [g6, e3],
    by rw [g4, e1], ?_⟩
  · have : k + 1 + 1 + m = (k + 1 + m) + 1 := by omega
    rw [this, settle_step hne hU]
    exact hsettle m
  · intro i hi
    rw [g8 i hi, p2, e5]
    simp only [ev]

theorem settle_unique (n : Nat) : ∀ (m : Nat) (s a b : State),
    settle n s = some a → settle m s = some b → a = b := by
  induction n with
  | zero =>
    intro m s a b ha hb
    by_cases hs : s.state = .IDLE
    · have e1 : settle 0 s = some s := by simp [settle, hs]
      have e2 : settle m s = some s := by cases m <;> simp [settle, hs]
      rw [e1] at ha; rw [e2] at hb
      cases ha; cases hb; rfl
    · simp [settle, hs] at ha
  | succ n ih =>
    intro m s a b ha hb
    by_cases hs : s.state = .IDLE
    · have e1 : settle (n + 1) s = some s := by simp [settle, hs]
      have e2 : settle m s = some s := by cases m <;> simp [settle, hs]
      rw [e1] at ha; rw [e2] at hb
      cases ha; cases hb; rfl
    · cases m with
      | zero => simp [settle, hs] at hb
      | succ m =>
        simp only [settle, hs, if_false, Option.bind_eq_some] at ha hb
        obtain ⟨u, hu, ha⟩ := ha
        obtain ⟨w, hw, hb⟩ := hb
        rw [hu] at hw
        cases hw
        exact ih m u a b ha hb

theorem values_Insert (s : State) (v : Int) (kind : Bool)
    (h : s.state = .IDLE ∨ s.state = .SORT_COMPLETED) :
    values (Insert s v kind) = values s ++ [v] := by
  obtain ⟨e1, -⟩ := Insert_accepted s v kind h
  simp [values, e1]

theorem length_of_values {s : State} {l : List Int} (h : values s = l) :
    s.heap.length = l.length := by
  rw [← h]; simp [values]

theorem valAt_of_values {s : State} {l : List Int} (h : values s = l) (j : Int) :
    valAt s.heap j = l.getD j.toNat 0 := by
  rw [valAt_eq_values, ← h]; rfl

theorem inBounds_of_length {h : List Node} {i : Int} {n : Nat} (hl : h.length = n)
    (h0 : 0 ≤ i) (h1 : i < n) : inBounds h i := by
  rw [← hl] at h1; exact ⟨h0, h1⟩

/-- The three inserts of the example, on any surface: each settles, and the values end as
`[8, 3, 5]`. -/
theorem build_5_3_8 (r : RECT) :
    ∃ n1 n2 n3 s1 s2 s3,
      settle n1 (Insert (init r) 5 true) = some s1 ∧
      settle n2 (Insert s1 3 true) = some s2 ∧
      settle n3 (Insert s2 8 true) = some s3 ∧
      values s3 = [8, 3, 5] := by
  -- 5 goes to the root
  obtain ⟨-, -, -, c0, m0, st0⟩ := Insert_accepted (init r) 5 true (Or.inl rfl)
  have v0 : values (Insert (init r) 5 true) = [5] := values_Insert _ _ _ (Or.inl rfl)
  have l0 := length_of_values v0
  have c0' : (Insert (init r) 5 true).currentIdx = 0 := by rw [c0]; rfl
  obtain ⟨s1, hs1, i1, v1⟩ := sift_final st0
    (by rw [c0']; exact inBounds_of_length l0 (by decide) (by decide)) (Or.inl c0')
  rw [v0] at v1
  -- 3 stays below 5
  obtain ⟨-, -, -, c1, m1, st1⟩ := Insert_accepted s1 3 true (Or.inl i1)
  have va1 : values (Insert s1 3 true) = [5, 3] := by
    rw [values_Insert _ _ _ (Or.inl i1), v1]; rfl
  have l1 := length_of_values va1
  have ls1 := length_of_values v1
  have c1' : (Insert s1 3 true).currentIdx = 1 := by rw [c1, ls1]; rfl
  obtain ⟨s2, hs2, i2, v2⟩ := sift_final st1
    (by rw [c1']; exact inBounds_of_length l1 (by decide) (by decide))
    (Or.inr (by
      rw [c1', m1, valAt_of_values va1, valAt_of_values va1]
      decide))
  rw [va1] at v2
  -- 8 is exchanged with the root
  obtain ⟨-, -, -, c2, m2, st2⟩ := Insert_accepted s2 8 true (Or.inl i2)
  have va2 : values (Insert s2 8 true) = [5, 3, 8] := by
    rw [values_Insert _ _ _ (Or.inl i2), v2]; rfl
  have l2 := length_of_values va2
  have ls2 := length_of_values v2
  have c2' : (Insert s2 8 true).currentIdx = 2 := by rw [c2, ls2]; rfl
  obtain ⟨k, t, hk, tst, tc, -, tl, tv⟩ := sift_round st2
    (by rw [c2']; exact inBounds_of_length l2 (by decide) (by decide))
    (by rw [c2']; decide)
    (by
      rw [c2', m2, valAt_of_values va2, valAt_of_values va2]
      decide)
  rw [c2'] at tc tv
  have tc0 : t.currentIdx = 0 := by rw [tc]; rfl
  rw [l2] at tl
  have vt : values t = [8, 3, 5] := by
    have tl3 : t.heap.length = 3 := tl
    have e0 : valAt t.heap 0 = 8 := by
      rw [tv 0 (by decide)]; simp only [valAt_of_values va2]; decide
    have e1 : valAt t.heap 1 = 3 := by
      rw [tv 1 (by decide)]; simp only [valAt_of_values va2]; decide
    have e2 : valAt t.heap 2 = 5 := by
      rw [tv 2 (by decide)]; simp only [valAt_of_values va2]; decide
    have r3 : List.range 3 = [0, 1, 2] := by decide
    unfold values
    rw [values_eq_range, tl3, r3]
    simp only [List.map_cons, List.map_nil, Nat.cast_zero, Nat.cast_one, Nat.cast_ofNat]
    rw [e0, e1, e2]
  obtain ⟨s3, hs3, -, v3⟩ := sift_final tst
    (by rw [tc0]; exact inBounds_of_length tl (by decide) (by decide)) (Or.inl tc0)
  rw [vt] at v3
  exact ⟨1, 1, k + 1, s1, s2, s3, hs1, hs2, by rw [hk 1]; exact hs3, v3⟩

/-- Claim C3, as amended.  From the constructor's state on any surface, `Insert(5, max)`,
`Insert(3, max)` and `Insert(8, max)`, each followed by ticks until the phase is `IDLE` again,
all settle, and the values are then `[8, 3, 5]`: 8 changed places with the root 5, and 3
stayed at index 1. -/
theorem insert_5_3_8_gives_8_3_5 (r : RECT) :
    ∃ n1 n2 n3 s1 s2 s3,
      settle n1 (Insert (init r) 5 true) = some s1 ∧
      settle n2 (Insert s1 3 true) = some s2 ∧
      settle n3 (Insert s2 8 true) = some s3 ∧
      values s3 = [8, 3, 5] :=
  build_5_3_8 r

/-- Claim C3 as stated fails: on the sample surface, no way of settling the three inserts
leaves the values `[8, 5, 3]`. -/
theorem insert_5_3_8_not_8_5_3 :
    ¬ ∃ n1 n2 n3 s1 s2 s3,
      settle n1 (Insert (init sampleRect) 5 true) = some s1 ∧
      settle n2 (Insert s1 3 true) = some s2 ∧
      settle n3 (Insert s2 8 true) = some s3 ∧
      values s3 = [8, 5, 3] := by
  rintro ⟨n1, n2, n3, s1, s2, s3, h1, h2, h3, hv⟩
  obtain ⟨m1, m2, m3, t1, t2, t3, g1, g2, g3, gv⟩ := build_5_3_8 sampleRect
  have e1 : s1 = t1 := settle_unique n1 m1 _ s1 t1 h1 g1
  subst e1
  have e2 : s2 = t2 := settle_unique n2 m2 _ s2 t2 h2 g2
  subst e2
  have e3 : s3 = t3 := settle_unique n3 m3 _ s3 t3 h3 g3
  subst e3
  rw [gv] at hv
  exact absurd hv (by decide)

/-! ## One tick, phase by phase -/

/-- What a defined `INSERT_CHECK` tick does to the discrete state. -/
theorem insertCheck_frame {s t : State} (h : insertCheck s = some t) :
    t.heap.length = s.heap.length ∧ t.heapSize = s.heapSize ∧ t.isMaxHeap = s.isMaxHeap ∧
    t.currentIdx = s.currentIdx ∧ (∀ k, valAt t.heap k = valAt s.heap k) ∧
    (t.state = .IDLE ∨ t.state = .INSERT_SWAP) := by
  simp only [insertCheck] at h
  split_ifs at h with b1 b2 b3
  · cases h
    exact ⟨by simp, by simp, by simp [RecalculateLayout], by simp [RecalculateLayout],
      fun k => by simp [RecalculateLayout, valAt_mapIdx_relayout], Or.inl (by simp)⟩
  · rw [Option.map_eq_some'] at h
    obtain ⟨u, hu1, hu2⟩ := h
    obtain ⟨e1, -, e3, e4, -, e6, -⟩ := PrepareSwap_frame hu1
    have ev := PrepareSwap_valAt hu1
    cases hu2
    exact ⟨e1, e3, e6, e4, ev, Or.inr rfl⟩
  · cases h
    exact ⟨rfl, rfl, rfl, rfl, fun _ => rfl, Or.inl rfl⟩

/-- What a defined `SORT_HEAPIFY_CHECK` tick does to the discrete state. -/
theorem sortHeapifyCheck_frame {s t : State} (h : sortHeapifyCheck s = some t) :
    t.heap.length = s.heap.length ∧ t.heapSize = s.heapSize ∧ t.isMaxHeap = s.isMaxHeap ∧
    t.currentIdx = s.currentIdx ∧ (∀ k, valAt t.heap k = valAt s.heap k) ∧
    (t.state = .SORT_HEAPIFY_SWAP ∨ t.state = .SORT_EXTRACT) := by
  simp only [sortHeapifyCheck, Option.bind_eq_some] at h
  obtain ⟨l1, -, largest, -, h⟩ := h
  split_ifs at h with b1
  · rw [Option.map_eq_some'] at h
    obtain ⟨u, hu1, hu2⟩ := h
    obtain ⟨e1, -, e3, e4, -, e6, -⟩ := PrepareSwap_frame hu1
    have ev := PrepareSwap_valAt hu1
    cases hu2
    exact ⟨e1, e3, e6, e4, ev, Or.inl rfl⟩
  · cases h
    exact ⟨rfl, rfl, rfl, rfl, fun _ => rfl, Or.inr rfl⟩

/-- Every defined tick keeps the length of the vector; it keeps `heapSize` except in phase
`SORT_SHRINK`; it never enters `SORT_COMPLETED`; and it either keeps every value in place
or exchanges the values at `currentIdx` and `compareIdx`, both in bounds. -/
theorem Update_discrete {s t : State} (hu : Update s = some t) :
    t.heap.length = s.heap.length ∧
    (s.state ≠ .SORT_SHRINK → t.heapSize = s.heapSize) ∧
    (t.state = .SORT_COMPLETED → s.state = .SORT_COMPLETED) ∧
    ((∀ k, valAt t.heap k = valAt s.heap k) ∨
     (inBounds s.heap s.currentIdx ∧ inBounds s.heap s.compareIdx ∧
        ∀ k, 0 ≤ k → valAt t.heap k
          = if k = s.compareIdx then valAt s.heap s.currentIdx
            else if k = s.currentIdx then valAt s.heap s.compareIdx else valAt s.heap k)) := by
  unfold Update at hu
  split_ifs at hu with c1 c2 c3 c4 c5 c6
  · cases hu
    exact ⟨rfl, fun _ => rfl, fun h => h, Or.inl fun _ => rfl⟩
  · obtain ⟨i1, i2, e1, e2, -, -, hmove⟩ := animate_discrete hu
    rcases hmove with ⟨f1, -, -, f4⟩ | ⟨f1, -, -, f4⟩
    · refine ⟨e1, fun _ => e2, fun h => ?_, Or.inl f4⟩
      rw [f1] at h; exact absurd (Or.inr h) c1
    · refine ⟨e1, fun _ => e2, fun h => ?_, Or.inr ⟨i1, i2, f4⟩⟩
      rw [f1] at h
      rcases c2 with c | c | c <;> simp [afterSwap, c] at h
  · obtain ⟨e1, e2, -, -, ev, hst⟩ := insertCheck_frame hu
    refine ⟨e1, fun _ => e2, fun h => ?_, Or.inl ev⟩
    rcases hst with c | c <;> simp [c] at h
  · exact absurd (Or.inr (Or.inr c4)) c2
  · unfold sortShrink at hu
    cases hu
    exact ⟨rfl, fun h => absurd c5 h, fun h => by simp at h, Or.inl fun _ => rfl⟩
  · obtain ⟨e1, e2, -, -, ev, hst⟩ := sortHeapifyCheck_frame hu
    refine ⟨e1, fun _ => e2, fun h => ?_, Or.inl ev⟩
    rcases hst with c | c <;> simp [c] at h
  · cases hu
    exact ⟨rfl, fun _ => rfl, fun h => h, Or.inl fun _ => rfl⟩

/-! ## `SORT_COMPLETED` is out of reach -/

theorem notCompleted_apply {c : Cmd} {s t : State} (hc : c.apply s = some t)
    (h : s.state ≠ .SORT_COMPLETED) : t.state ≠ .SORT_COMPLETED := by
  cases c with
  | insert v m =>
    cases hc
    by_cases hg : s.state = .IDLE ∨ s.state = .SORT_COMPLETED
    · obtain ⟨-, -, -, -, -, h6⟩ := Insert_accepted s v m hg
      rw [h6]; decide
    · rw [Insert_busy s v m (fun h => hg (Or.inl h)) (fun h => hg (Or.inr h))]
      exact h
  | startSort =>
    cases hc
    unfold StartSort
    split
    · exact h
    · simp
  | reset => cases hc; simp [Reset]
  | tick => exact fun ht => h ((Update_discrete hc).2.2.1 ht)
  | resize r => cases hc; simpa [SetRect] using h

theorem notCompleted_run (cmds : List Cmd) {s t : State} (hr : run cmds s = some t)
    (h : s.state ≠ .SORT_COMPLETED) : t.state ≠ .SORT_COMPLETED := by
  induction cmds generalizing s with
  | nil => cases hr; exact h
  | cons c cs ih =>
    simp only [run, Option.bind_eq_some] at hr
    obtain ⟨u, hu, hr⟩ := hr
    exact ih hr (notCompleted_apply hu h)

/-- Claim C12.  No sequence of `Insert`, `StartSort`, `Reset`, tick (and resize) messages
applied to the constructor's state produces a state in phase `SORT_COMPLETED`: the phase is
only assigned in the `SORT_EXTRACT` branch of `Update`, which the animation branch
pre-empts. -/
theorem sortCompleted_unreachable (r : RECT) (s : State) (h : Reachable r s) :
    s.state ≠ .SORT_COMPLETED := by
  obtain ⟨cmds, hr⟩ := h
  exact notCompleted_run cmds hr (by simp [init])

/-- Claim C12 at `pairExtract`, the state of a sort whose live region is down to one node. -/
theorem sortCompleted_unreachable_witness :
    Reachable sampleRect pairExtract ∧ pairExtract.state ≠ .SORT_COMPLETED :=
  ⟨⟨sortPairCmds ++ [.tick, .tick, .tick], by decide!⟩,
    sortCompleted_unreachable sampleRect pairExtract
      ⟨sortPairCmds ++ [.tick, .tick, .tick], by decide!⟩⟩

/-- In phase `SORT_EXTRACT` a tick is the animation branch, whatever `heapSize` is; the branch
of lines 201-211 is not consulted. -/
theorem Update_sortExtract_is_animate {s : State} (h : s.state = .SORT_EXTRACT) :
    Update s = animate s :=
  Update_swapPhase (Or.inr (Or.inr h))

/-- Claim C11, evaluated at its failing input.  Three ticks after `StartSort` on the heap
`[8, 3, 5]` the state is `extractStale`: phase `SORT_EXTRACT`, `heapSize = 2`, values
`[5, 3, 8]`, and `currentIdx = compareIdx = 0` as the last commit left them.  The next tick
commits the exchange of slot 0 with itself and moves to `SORT_SHRINK`: `compareIdx` was never
set to `heapSize - 1 = 1`, and the root 5 and the last live value 3 stay where they were. -/
theorem extract_uses_stale_indices :
    run (build538 ++ [.startSort, .tick, .tick, .tick]) (init sampleRect) = some extractStale ∧
    extractStale.state = .SORT_EXTRACT ∧ 1 < extractStale.heapSize ∧
    extractStale.compareIdx ≠ extractStale.heapSize - 1 ∧
    values extractStale = [5, 3, 8] ∧
    Update extractStale
      = some { extractStale with state := .SORT_SHRINK, animationProgress := 115 } := by
  decide!

/-! ## The tick in each phase -/

/-- Claim C17.  In phase `SORT_SHRINK` one tick lowers `heapSize` by exactly 1, sets
`currentIdx` to 0, moves the phase to `SORT_HEAPIFY_CHECK` and leaves the vector (and every
other field) unchanged; in every other phase a defined tick leaves `heapSize` unchanged. -/
theorem sortShrink_tick (s : State) :
    (s.state = .SORT_SHRINK →
      Update s = some { s with heapSize := s.heapSize - 1, currentIdx := 0,
                               state := .SORT_HEAPIFY_CHECK }) ∧
    (s.state ≠ .SORT_SHRINK → ∀ t, Update s = some t → t.heapSize = s.heapSize) := by
  constructor
  · intro h
    rw [Update_sortShrink h]; rfl
  · intro h t ht
    exact (Update_discrete ht).2.1 h

/-- Claim C17 at `pairSwapped` (phase `SORT_SHRINK`, `heapSize = 2`), whose tick gives
`pairShrunk` (`heapSize = 1`), and at `pairShrunk` (phase `SORT_HEAPIFY_CHECK`), whose tick
keeps `heapSize`. -/
theorem sortShrink_tick_witness :
    pairSwapped.state = .SORT_SHRINK ∧ Update pairSwapped = some pairShrunk ∧
    pairShrunk.state ≠ .SORT_SHRINK ∧ Update pairShrunk = some pairExtract ∧
    pairExtract.heapSize = pairShrunk.heapSize :=
  ⟨rfl, (sortShrink_tick pairSwapped).1 rfl, by decide, by decide!,
    (sortShrink_tick pairShrunk).2 (by decide) pairExtract (by decide!)⟩

/-- Claim C14.  In phase `INSERT_CHECK` with `currentIdx` in bounds one tick is defined and
leaves all values unchanged.  If `currentIdx = 0` the phase becomes `IDLE`.  Otherwise, with
`parent = (currentIdx - 1) / 2`: if `isMaxHeap` and `value[currentIdx] > value[parent]`, or
not `isMaxHeap` and `value[currentIdx] < value[parent]`, then `compareIdx` becomes `parent` and
the phase becomes `INSERT_SWAP`; else the phase becomes `IDLE`.  Equal values give `IDLE`. -/
theorem insertCheck_tick (s : State) (hst : s.state = .INSERT_CHECK)
    (hb : inBounds s.heap s.currentIdx) :
    ∃ t, Update s = some t ∧ values t = values s ∧
      (s.currentIdx = 0 → t.state = .IDLE) ∧
      (s.currentIdx ≠ 0 →
        (((s.isMaxHeap = true ∧
              valAt s.heap s.currentIdx > valAt s.heap ((s.currentIdx - 1) / 2)) ∨
            (s.isMaxHeap = false ∧
              valAt s.heap s.currentIdx < valAt s.heap ((s.currentIdx - 1) / 2))) →
          t.compareIdx = (s.currentIdx - 1) / 2 ∧ t.state = .INSERT_SWAP) ∧
        (¬ ((s.isMaxHeap = true ∧
              valAt s.heap s.currentIdx > valAt s.heap ((s.currentIdx - 1) / 2)) ∨
            (s.isMaxHeap = false ∧
              valAt s.heap s.currentIdx < valAt s.heap ((s.currentIdx - 1) / 2))) →
          t.state = .IDLE) ∧
        (valAt s.heap s.currentIdx = valAt s.heap ((s.currentIdx - 1) / 2) →
          t.state = .IDLE)) := by
  obtain ⟨t, hU, e1, -, -, -, -, ev, hphase⟩ := insertCheck_discrete hst hb
  refine ⟨t, hU, values_ext e1 (fun k _ => ev k), ?_, ?_⟩
  · intro h0
    rw [if_pos (Or.inl h0)] at hphase
    exact hphase
  · intro h0
    have key : ¬ ((s.isMaxHeap = true ∧
              valAt s.heap s.currentIdx > valAt s.heap ((s.currentIdx - 1) / 2)) ∨
            (s.isMaxHeap = false ∧
              valAt s.heap s.currentIdx < valAt s.heap ((s.currentIdx - 1) / 2))) →
          t.state = .IDLE := by
      intro hn
      rw [swapNeeded_iff, not_not] at hn
      rw [if_pos (Or.inr hn)] at hphase
      exact hphase
    refine ⟨?_, key, ?_⟩
    · intro hsw
      rw [swapNeeded_iff] at hsw
      rw [if_neg (by simp [h0, hsw])] at hphase
      exact ⟨hphase.2, hphase.1⟩
    · intro heq
      apply key
      rw [heq]
      rintro (⟨-, h⟩ | ⟨-, h⟩) <;> exact lt_irrefl _ h

/-- Claim C14 at `sampleInsertCheck`: 7 below 5 in a max-heap, so the tick prepares the
exchange. -/
theorem insertCheck_tick_witness :
    sampleInsertCheck.state = .INSERT_CHECK ∧
    inBounds sampleInsertCheck.heap sampleInsertCheck.currentIdx ∧
    ∃ t, Update sampleInsertCheck = some t ∧ values t = values sampleInsertCheck ∧
      (sampleInsertCheck.currentIdx = 0 → t.state = .IDLE) ∧
      (sampleInsertCheck.currentIdx ≠ 0 →
        (((sampleInsertCheck.isMaxHeap = true ∧
              valAt sampleInsertCheck.heap sampleInsertCheck.currentIdx
                > valAt sampleInsertCheck.heap ((sampleInsertCheck.currentIdx - 1) / 2)) ∨
            (sampleInsertCheck.isMaxHeap = false ∧
              valAt sampleInsertCheck.heap sampleInsertCheck.currentIdx
                < valAt sampleInsertCheck.heap ((sampleInsertCheck.currentIdx - 1) / 2))) →
          t.compareIdx = (sampleInsertCheck.currentIdx - 1) / 2 ∧ t.state = .INSERT_SWAP) ∧
        (¬ ((sampleInsertCheck.isMaxHeap = true ∧
              valAt sampleInsertCheck.heap sampleInsertCheck.currentIdx
                > valAt sampleInsertCheck.heap ((sampleInsertCheck.currentIdx - 1) / 2)) ∨
            (sampleInsertCheck.isMaxHeap = false ∧
              valAt sampleInsertCheck.heap sampleInsertCheck.currentIdx
                < valAt sampleInsertCheck.heap ((sampleInsertCheck.currentIdx - 1) / 2))) →
          t.state = .IDLE) ∧
        (valAt sampleInsertCheck.heap sampleInsertCheck.currentIdx
            = valAt sampleInsertCheck.heap ((sampleInsertCheck.currentIdx - 1) / 2) →
          t.state = .IDLE)) :=
  ⟨rfl, by decide, insertCheck_tick sampleInsertCheck rfl (by decide)⟩

/-- The committing tick, spelled out. -/
theorem animate_commit {s : State} (h1 : inBounds s.heap s.currentIdx)
    (h2 : inBounds s.heap s.compareIdx)
    (ha : arrived (nodeAt (movedHeap s) s.currentIdx) ∧
      arrived (nodeAt (movedHeap s) s.compareIdx)) :
    animate s = some { s with
      animationProgress := s.animationProgress + ANIMATION_STEP_INCREMENT,
      heap := swapNodes (modifyAt (modifyAt (movedHeap s) s.currentIdx snap) s.compareIdx snap)
        s.currentIdx s.compareIdx,
      currentIdx := s.compareIdx, compareIdx := s.currentIdx,
      state := afterSwap s.state } := by
  unfold movedHeap at ha
  simp only [animate, h1, h2, and_self, if_true]
  rw [if_pos ha]
  rfl

/-- Claim C13.  In a swap-bearing phase (`INSERT_SWAP`, `SORT_HEAPIFY_SWAP`, `SORT_EXTRACT`)
with `currentIdx` and `compareIdx` in bounds a tick is defined and keeps `heapSize`.  If both
nodes are arrived after the advance step, the entries at the two indices are exchanged (each
snapped onto its target) and then the two index variables are exchanged, so the value at the
new `currentIdx` is the value that was at the old one, every other slot keeps its value, and
the phase becomes `INSERT_CHECK`, `SORT_HEAPIFY_CHECK` or `SORT_SHRINK` respectively.  If they
are not both arrived, the values, both index variables and the phase are unchanged. -/
theorem swap_tick (s : State)
    (hst : s.state = .INSERT_SWAP ∨ s.state = .SORT_HEAPIFY_SWAP ∨ s.state = .SORT_EXTRACT)
    (h1 : inBounds s.heap s.currentIdx) (h2 : inBounds s.heap s.compareIdx) :
    ∃ t, Update s = some t ∧ t.heapSize = s.heapSize ∧
      ((arrived (nodeAt (movedHeap s) s.currentIdx) ∧
          arrived (nodeAt (movedHeap s) s.compareIdx)) →
        nodeAt t.heap s.compareIdx = snap (nodeAt (movedHeap s) s.currentIdx) ∧
        nodeAt t.heap s.currentIdx = snap (nodeAt (movedHeap s) s.compareIdx) ∧
        t.currentIdx = s.compareIdx ∧ t.compareIdx = s.currentIdx ∧
        valAt t.heap t.currentIdx = valAt s.heap s.currentIdx ∧
        valAt t.heap t.compareIdx = valAt s.heap s.compareIdx ∧
        (∀ k, 0 ≤ k → k ≠ s.currentIdx → k ≠ s.compareIdx →
          valAt t.heap k = valAt s.heap k) ∧
        (s.state = .INSERT_SWAP → t.state = .INSERT_CHECK) ∧
        (s.state = .SORT_HEAPIFY_SWAP → t.state = .SORT_HEAPIFY_CHECK) ∧
        (s.state = .SORT_EXTRACT → t.state = .SORT_SHRINK)) ∧
      (¬ (arrived (nodeAt (movedHeap s) s.currentIdx) ∧
          arrived (nodeAt (movedHeap s) s.compareIdx)) →
        values t = values s ∧ t.currentIdx = s.currentIdx ∧ t.compareIdx = s.compareIdx ∧
        t.state = s.state) := by
  by_cases ha : arrived (nodeAt (movedHeap s) s.currentIdx) ∧
      arrived (nodeAt (movedHeap s) s.compareIdx)
  · have hc := animate_commit h1 h2 ha
    refine ⟨_, (Update_swapPhase hst).trans hc, rfl, fun _ => ?_, fun hn => absurd ha hn⟩
    have b1 : inBounds (movedHeap s) s.currentIdx := by simpa [movedHeap, inBounds] using h1
    have b2 : inBounds (movedHeap s) s.compareIdx := by simpa [movedHeap, inBounds] using h2
    have c1 : inBounds (modifyAt (modifyAt (movedHeap s) s.currentIdx snap) s.compareIdx snap)
        s.currentIdx := by simpa [inBounds] using b1
    have c2 : inBounds (modifyAt (modifyAt (movedHeap s) s.currentIdx snap) s.compareIdx snap)
        s.compareIdx := by simpa [inBounds] using b2
    have hval : ∀ k, 0 ≤ k →
        valAt (swapNodes (modifyAt (modifyAt (movedHeap s) s.currentIdx snap) s.compareIdx
          snap) s.currentIdx s.compareIdx) k
        = if k = s.compareIdx then valAt s.heap s.currentIdx
          else if k = s.currentIdx then valAt s.heap s.compareIdx else valAt s.heap k := by
      intro k hk
      rw [valAt_swapNodes _ _ _ _ c1 c2 hk]
      simp only [movedHeap, valAt_modifyAt _ _ _ _ snap_value,
        valAt_modifyAt _ _ _ _ advance_value]
    refine ⟨?_, ?_, rfl, rfl, ?_, ?_, ?_, ?_, ?_, ?_⟩
    · show nodeAt (swapNodes _ _ _) s.compareIdx = _
      rw [nodeAt_swapNodes _ _ _ _ c1 c2 h2.1, if_pos rfl, nodeAt_twice_left _ _ _ _ b1 b2]
      split_ifs <;> rfl
    · show nodeAt (swapNodes _ _ _) s.currentIdx = _
      rw [nodeAt_swapNodes _ _ _ _ c1 c2 h1.1]
      by_cases e : s.currentIdx = s.compareIdx
      · rw [if_pos e, nodeAt_twice_left _ _ _ _ b1 b2, if_pos e, e]; rfl
      · rw [if_neg e, if_pos rfl, nodeAt_twice_right _ _ _ _ b1 b2, if_neg e]
    · show valAt (swapNodes _ _ _) s.compareIdx = _
      rw [hval _ h2.1, if_pos rfl]
    · show valAt (swapNodes _ _ _) s.currentIdx = _
      rw [hval _ h1.1]
      by_cases e : s.currentIdx = s.compareIdx
      · rw [if_pos e, e]
      · rw [if_neg e, if_pos rfl]
    · intro k hk n1 n2
      show valAt (swapNodes _ _ _) k = _
      rw [hval k hk, if_neg n2, if_neg n1]
    · intro e; show afterSwap s.state = _; rw [e]; rfl
    · intro e; show afterSwap s.state = _; rw [e]; rfl
    · intro e; show afterSwap s.state = _; rw [e]; rfl
  · have hm := animate_moving h1 h2 ha
    refine ⟨_, (Update_swapPhase hst).trans hm, rfl, fun h => absurd h ha,
      fun _ => ⟨?_, rfl, rfl, rfl⟩⟩
    show (movedHeap s).map Node.value = s.heap.map Node.value
    unfold movedHeap
    rw [values_modifyAt _ _ _ advance_value, values_modifyAt _ _ _ advance_value]

/-- Claim C13 at `sampleInsertSwap`, whose two nodes have just started to move. -/
theorem swap_tick_witness :
    (sampleInsertSwap.state = .INSERT_SWAP ∨ sampleInsertSwap.state = .SORT_HEAPIFY_SWAP ∨
      sampleInsertSwap.state = .SORT_EXTRACT) ∧
    inBounds sampleInsertSwap.heap sampleInsertSwap.currentIdx ∧
    inBounds sampleInsertSwap.heap sampleInsertSwap.compareIdx ∧
    ∃ t, Update sampleInsertSwap = some t ∧ t.heapSize = sampleInsertSwap.heapSize ∧
      ((arrived (nodeAt (movedHeap sampleInsertSwap) sampleInsertSwap.currentIdx) ∧
          arrived (nodeAt (movedHeap sampleInsertSwap) sampleInsertSwap.compareIdx)) →
        nodeAt t.heap sampleInsertSwap.compareIdx
          = snap (nodeAt (movedHeap sampleInsertSwap) sampleInsertSwap.currentIdx) ∧
        nodeAt t.heap sampleInsertSwap.currentIdx
          = snap (nodeAt (movedHeap sampleInsertSwap) sampleInsertSwap.compareIdx) ∧
        t.currentIdx = sampleInsertSwap.compareIdx ∧
        t.compareIdx = sampleInsertSwap.currentIdx ∧
        valAt t.heap t.currentIdx = valAt sampleInsertSwap.heap sampleInsertSwap.currentIdx ∧
        valAt t.heap t.compareIdx = valAt sampleInsertSwap.heap sampleInsertSwap.compareIdx ∧
        (∀ k, 0 ≤ k → k ≠ sampleInsertSwap.currentIdx → k ≠ sampleInsertSwap.compareIdx →
          valAt t.heap k = valAt sampleInsertSwap.heap k) ∧
        (sampleInsertSwap.state = .INSERT_SWAP → t.state = .INSERT_CHECK) ∧
        (sampleInsertSwap.state = .SORT_HEAPIFY_SWAP → t.state = .SORT_HEAPIFY_CHECK) ∧
        (sampleInsertSwap.state = .SORT_EXTRACT → t.state = .SORT_SHRINK)) ∧
      (¬ (arrived (nodeAt (movedHeap sampleInsertSwap) sampleInsertSwap.currentIdx) ∧
          arrived (nodeAt (movedHeap sampleInsertSwap) sampleInsertSwap.compareIdx)) →
        values t = values sampleInsertSwap ∧
        t.currentIdx = sampleInsertSwap.currentIdx ∧
        t.compareIdx = sampleInsertSwap.compareIdx ∧
        t.state = sampleInsertSwap.state) :=
  ⟨Or.inl rfl, by decide, by decide,
    swap_tick sampleInsertSwap (Or.inl rfl) (by decide) (by decide)⟩

/-! ## Resizing -/

theorem GetNodePos_of_nonneg (r : RECT) (i : Int) (out : ℚ × ℚ) (h : 0 ≤ i) :
    GetNodePos r i out = anchor r i := by
  have : ¬ i < 0 := not_lt.mpr h
  simp [GetNodePos, anchor, this]

theorem relayoutNode_eq (r : RECT) (i : Nat) (n : Node) :
    relayoutNode r i n
      = ⟨n.value, (anchor r i).1, (anchor r i).2, (anchor r i).1, (anchor r i).2⟩ := by
  unfold relayoutNode
  rw [GetNodePos_of_nonneg r i _ (Int.ofNat_nonneg i)]

theorem SetRect_idle (s : State) (r : RECT) (h : s.state = .IDLE) :
    SetRect s r = { s with clientRect := r, heap := s.heap.mapIdx (relayoutNode r) } := by
  simp [SetRect, RecalculateLayout, h]

theorem SetRect_busy (s : State) (r : RECT) (h : s.state ≠ .IDLE) :
    SetRect s r = { s with clientRect := r } := by
  simp [SetRect, RecalculateLayout, h]

/-- Claim C20.  `SetRect` always stores the new rectangle.  In phase `IDLE` every node's
position and target become the anchor of its index under the new rectangle; in every other
phase the vector is unchanged.  In both cases the values, `heapSize`, the phase, both index
variables, `isMaxHeap` and `animationProgress` are unchanged. -/
theorem setRect_effect (s : State) (r : RECT) :
    (SetRect s r).clientRect = r ∧
    (SetRect s r).heap
      = (if s.state = .IDLE then
          s.heap.mapIdx (fun i n =>
            ⟨n.value, (anchor r i).1, (anchor r i).2, (anchor r i).1, (anchor r i).2⟩)
         else s.heap) ∧
    values (SetRect s r) = values s ∧
    (SetRect s r).heapSize = s.heapSize ∧ (SetRect s r).state = s.state ∧
    (SetRect s r).currentIdx = s.currentIdx ∧ (SetRect s r).compareIdx = s.compareIdx ∧
    (SetRect s r).isMaxHeap = s.isMaxHeap ∧
    (SetRect s r).animationProgress = s.animationProgress := by
  by_cases h : s.state = .IDLE
  · rw [SetRect_idle s r h, if_pos h]
    refine ⟨rfl, ?_, ?_, rfl, rfl, rfl, rfl, rfl, rfl⟩
    · show s.heap.mapIdx (relayoutNode r) = _
      congr 1
    · exact values_ext (by simp) (fun k _ => valAt_mapIdx_relayout r s.heap k)
  · rw [SetRect_busy s r h, if_neg h]
    exact ⟨rfl, rfl, rfl, rfl, rfl, rfl, rfl, rfl, rfl⟩

/-! ## The animation, one axis -/

/-- One step either lands on the target or keeps four fifths of the distance. -/
theorem moveTowards_cases (c t : ℚ) :
    t - moveTowards c t = 0 ∨ t - moveTowards c t = (4 / 5) * (t - c) := by
  unfold moveTowards
  simp only
  split_ifs
  · left; ring
  · right; ring

theorem moveTowards_no_overshoot (c t : ℚ) :
    (0 ≤ t - c → 0 ≤ t - moveTowards c t) ∧ (t - c ≤ 0 → t - moveTowards c t ≤ 0) ∧
    |t - moveTowards c t| ≤ |t - c| := by
  rcases moveTowards_cases c t with h | h
  · rw [h]
    exact ⟨fun _ => le_refl _, fun _ => le_refl _, by simp⟩
  · rw [h]
    refine ⟨fun h0 => by linarith, fun h0 => by linarith, ?_⟩
    rw [abs_mul, abs_of_pos (by norm_num : (0 : ℚ) < 4 / 5)]
    nlinarith [abs_nonneg (t - c)]

/-- Claim C18.  Over exact arithmetic, for one axis with current `c` and target `t`, the
step `moveTowards` (snap if `|t - c| < 2`, else add `0.2 * (t - c)`) never passes the target:
along the iterates the sign of `t - c` never flips and `|t - c|` never increases.  For every
`n` with `0.8 ^ n * |t - c| < 2`, `n + 1` steps leave the coordinate equal to `t`; it is then
arrived (`|t - c| < 1`) and stays so under any further steps. -/
theorem moveTowards_convergence (c t : ℚ) :
    (∀ k : Nat,
      (0 ≤ t - c → 0 ≤ t - (fun c => moveTowards c t)^[k] c) ∧
      (t - c ≤ 0 → t - (fun c => moveTowards c t)^[k] c ≤ 0) ∧
      |t - (fun c => moveTowards c t)^[k + 1] c| ≤ |t - (fun c => moveTowards c t)^[k] c|) ∧
    (∀ n : Nat, (4 / 5 : ℚ) ^ n * |t - c| < 2 →
      (fun c => moveTowards c t)^[n + 1] c = t ∧
      ∀ m, n + 1 ≤ m →
        (fun c => moveTowards c t)^[m] c = t ∧ |t - (fun c => moveTowards c t)^[m] c| < 1) := by
  constructor
  · intro k
    induction k with
    | zero =>
      refine ⟨fun h => h, fun h => h, ?_⟩
      simpa using (moveTowards_no_overshoot c t).2.2
    | succ k ih =>
      obtain ⟨i1, i2, -⟩ := ih
      have hs := moveTowards_no_overshoot ((fun c => moveTowards c t)^[k] c) t
      refine ⟨fun h => ?_, fun h => ?_, ?_⟩
      · rw [Function.iterate_succ_apply']
        exact hs.1 (i1 h)
      · rw [Function.iterate_succ_apply']
        exact hs.2.1 (i2 h)
      · rw [Function.iterate_succ_apply' _ (k + 1), Function.iterate_succ_apply' _ k]
        exact (moveTowards_no_overshoot _ t).2.2
  · intro n hn
    have hreach := moveTowards_reaches t n c hn
    refine ⟨hreach, fun m hm => ?_⟩
    obtain ⟨d, rfl⟩ := Nat.exists_eq_add_of_le hm
    have : (fun c => moveTowards c t)^[n + 1 + d] c = t := by
      rw [Nat.add_comm, Function.iterate_add_apply, hreach]
      exact moveTowards_iterate_self t d
    rw [this]
    exact ⟨rfl, by simp⟩

/-- Claim C18 at `c = 0`, `t = 10`, `n = 8`: `0.8 ^ 8 * 10 < 2`, so nine steps reach 10. -/
theorem moveTowards_convergence_witness :
    (4 / 5 : ℚ) ^ 8 * |(10 : ℚ) - 0| < 2 ∧
    ((fun c => moveTowards c 10)^[8 + 1] 0 = 10 ∧
      ∀ m, 8 + 1 ≤ m →
        (fun c => moveTowards c 10)^[m] 0 = 10 ∧
        |(10 : ℚ) - (fun c => moveTowards c 10)^[m] 0| < 1) :=
  ⟨by norm_num [abs_of_pos], (moveTowards_convergence 0 10).2 8 (by norm_num [abs_of_pos])⟩

/-! ## The layout -/

theorem level_spec (i : Int) (h : 0 ≤ i) :
    (2 : Int) ^ level i ≤ i + 1 ∧ i + 1 < (2 : Int) ^ (level i + 1) := by
  have hne : (i + 1).toNat ≠ 0 := by omega
  have h1 : 2 ^ level i ≤ (i + 1).toNat := by
    unfold level
    rw [Nat.log2_eq_log_two]
    exact Nat.pow_log_le_self 2 hne
  have h2 : (i + 1).toNat < 2 ^ (level i + 1) := by
    unfold level
    rw [Nat.log2_eq_log_two]
    exact Nat.lt_pow_succ_log_self (by decide) _
  have e : ((i + 1).toNat : Int) = i + 1 := Int.toNat_of_nonneg (by omega)
  constructor
  · have : ((2 ^ level i : Nat) : Int) ≤ ((i + 1).toNat : Int) := Int.ofNat_le.mpr h1
    rw [e] at this
    simpa using this
  · have : ((i + 1).toNat : Int) < ((2 ^ (level i + 1) : Nat) : Int) := Int.ofNat_lt.mpr h2
    rw [e] at this
    simpa using this

theorem level_eq_of_bounds (i : Int) (L : Nat) (h0 : 0 ≤ i) (h1 : (2 : Int) ^ L ≤ i + 1)
    (h2 : i + 1 < (2 : Int) ^ (L + 1)) : level i = L := by
  unfold level
  rw [Nat.log2_eq_log_two]
  apply Nat.log_eq_of_pow_le_of_lt_pow
  · have : ((2 ^ L : Nat) : Int) ≤ ((i + 1).toNat : Int) := by
      rw [Int.toNat_of_nonneg (by omega)]; simpa using h1
    exact Int.ofNat_le.mp this
  · have : ((i + 1).toNat : Int) < ((2 ^ (L + 1) : Nat) : Int) := by
      rw [Int.toNat_of_nonneg (by omega)]; simpa using h2
    exact Int.ofNat_lt.mp this

/-- What `GetNodePos` stores for a non-negative index, in terms of `level` and
`posInLevel`. -/
theorem anchor_eq (r : RECT) (i : Int) (h : 0 ≤ i) :
    anchor r i
      = (((r.right - r.left : Int) : ℚ) / (((2 : Int) ^ level i + 1 : Int) : ℚ)
            * ((posInLevel i + 1 : Int) : ℚ),
          (r.top : ℚ) + 30 + (((level i : Int) * VERTICAL_SPACING : Int) : ℚ)) := by
  have : ¬ i < 0 := not_lt.mpr h
  simp only [anchor, GetNodePos, this, if_false, level, posInLevel]

/-- Claim C19.  For every index `i ≥ 0`, with `level i = floor (log2 (i + 1))` and
`posInLevel i = i - (2 ^ level i - 1)` as `GetNodePos` computes them:
`0 ≤ posInLevel i < 2 ^ level i`; both children `2 i + 1` and `2 i + 2` have level
`level i + 1`; and their anchor's `y` is the parent's plus `VERTICAL_SPACING`, which is 60. -/
theorem layout_is_complete_tree (r : RECT) (i : Int) (h : 0 ≤ i) :
    (anchor r i).2 = (r.top : ℚ) + 30 + (((level i : Int) * VERTICAL_SPACING : Int) : ℚ) ∧
    0 ≤ posInLevel i ∧ posInLevel i < 2 ^ level i ∧
    level (2 * i + 1) = level i + 1 ∧ level (2 * i + 2) = level i + 1 ∧
    (anchor r (2 * i + 1)).2 = (anchor r i).2 + 60 ∧
    (anchor r (2 * i + 2)).2 = (anchor r i).2 + 60 ∧
    VERTICAL_SPACING = 60 := by
  obtain ⟨h1, h2⟩ := level_spec i h
  have hp : (2 : Int) ^ (level i + 1) = 2 * 2 ^ level i := by rw [pow_succ]; ring
  have hpp : (2 : Int) ^ (level i + 1 + 1) = 4 * 2 ^ level i := by
    rw [pow_succ, pow_succ]; ring
  have l1 : level (2 * i + 1) = level i + 1 :=
    level_eq_of_bounds _ _ (by omega) (by rw [hp]; omega) (by rw [hpp]; omega)
  have l2 : level (2 * i + 2) = level i + 1 :=
    level_eq_of_bounds _ _ (by omega) (by rw [hp]; omega) (by rw [hpp]; omega)
  refine ⟨by rw [anchor_eq r i h], ?_, ?_, l1, l2, ?_, ?_, rfl⟩
  · unfold posInLevel; omega
  · unfold posInLevel; omega
  · rw [anchor_eq r i h, anchor_eq r _ (by omega : (0 : Int) ≤ 2 * i + 1), l1]
    simp only [VERTICAL_SPACING]
    push_cast
    ring
  · rw [anchor_eq r i h, anchor_eq r _ (by omega : (0 : Int) ≤ 2 * i + 2), l2]
    simp only [VERTICAL_SPACING]
    push_cast
    ring

/-- Claim C19 at index 4: level 2, position 1 of 4; its children 9 and 10 are on level 3. -/
theorem layout_is_complete_tree_witness :
    (0 : Int) ≤ 4 ∧
    ((anchor sampleRect 4).2
        = (sampleRect.top : ℚ) + 30 + (((level 4 : Int) * VERTICAL_SPACING : Int) : ℚ) ∧
    0 ≤ posInLevel 4 ∧ posInLevel 4 < 2 ^ level 4 ∧
    level (2 * 4 + 1) = level 4 + 1 ∧ level (2 * 4 + 2) = level 4 + 1 ∧
    (anchor sampleRect (2 * 4 + 1)).2 = (anchor sampleRect 4).2 + 60 ∧
    (anchor sampleRect (2 * 4 + 2)).2 = (anchor sampleRect 4).2 + 60 ∧
    VERTICAL_SPACING = 60) :=
  ⟨by decide, layout_is_complete_tree sampleRect 4 (by decide)⟩

/-! ## The heapify check -/

theorem pickLarger_eq (s : State) (child largest : Int) (hl : inBounds s.heap largest)
    (hc : child < s.heapSize → inBounds s.heap child) :
    pickLarger s child largest
      = some (if child < s.heapSize ∧ valAt s.heap child > valAt s.heap largest then child
              else largest) := by
  unfold pickLarger
  by_cases h : child < s.heapSize
  · rw [if_pos h, if_pos ⟨hc h, hl⟩]
    simp only [value_nodeAt, h, true_and]
  · rw [if_neg h]
    simp [h]

/-- What `largestOf` picks: a candidate holding the maximum value, a child only when
strictly greater than `currentIdx`, `right` only when strictly greater than a counted
`left`. -/
theorem largestOf_spec (s : State) (h0 : 0 ≤ s.currentIdx) :
    (largestOf s = s.currentIdx ∨
      (largestOf s = 2 * s.currentIdx + 1 ∧ 2 * s.currentIdx + 1 < s.heapSize) ∨
      (largestOf s = 2 * s.currentIdx + 2 ∧ 2 * s.currentIdx + 2 < s.heapSize)) ∧
    valAt s.heap s.currentIdx ≤ valAt s.heap (largestOf s) ∧
    (2 * s.currentIdx + 1 < s.heapSize →
      valAt s.heap (2 * s.currentIdx + 1) ≤ valAt s.heap (largestOf s)) ∧
    (2 * s.currentIdx + 2 < s.heapSize →
      valAt s.heap (2 * s.currentIdx + 2) ≤ valAt s.heap (largestOf s)) ∧
    (largestOf s ≠ s.currentIdx → valAt s.heap s.currentIdx < valAt s.heap (largestOf s)) ∧
    (largestOf s = 2 * s.currentIdx + 2 → 2 * s.currentIdx + 1 < s.heapSize →
      valAt s.heap (2 * s.currentIdx + 1) < valAt s.heap (largestOf s)) := by
  by_cases c1 : 2 * s.currentIdx + 1 < s.heapSize ∧
      valAt s.heap (2 * s.currentIdx + 1) > valAt s.heap s.currentIdx
  · by_cases c2 : 2 * s.currentIdx + 2 < s.heapSize ∧
        valAt s.heap (2 * s.currentIdx + 2) > valAt s.heap (2 * s.currentIdx + 1)
    · have hL : largestOf s = 2 * s.currentIdx + 2 := by
        unfold largestOf; dsimp only; rw [if_pos c1, if_pos c2]
      rw [hL]
      refine ⟨Or.inr (Or.inr ⟨rfl, c2.1⟩), ?_, ?_, ?_, ?_, ?_⟩
      · omega
      · intro _; omega
      · intro _; omega
      · intro _; omega
      · intro _ _; omega
    · have hL : largestOf s = 2 * s.currentIdx + 1 := by
        unfold largestOf; dsimp only; rw [if_pos c1, if_neg c2]
      rw [hL]
      refine ⟨Or.inr (Or.inl ⟨rfl, c1.1⟩), ?_, ?_, ?_, ?_, ?_⟩
      · omega
      · intro _; omega
      · intro h; have := not_and.mp c2 h; omega
      · intro _; omega
      · intro h; omega
  · by_cases c2 : 2 * s.currentIdx + 2 < s.heapSize ∧
        valAt s.heap (2 * s.currentIdx + 2) > valAt s.heap s.currentIdx
    · have hL : largestOf s = 2 * s.currentIdx + 2 := by
        unfold largestOf; dsimp only; rw [if_neg c1, if_pos c2]
      rw [hL]
      refine ⟨Or.inr (Or.inr ⟨rfl, c2.1⟩), ?_, ?_, ?_, ?_, ?_⟩
      · omega
      · intro h; have := not_and.mp c1 h; omega
      · intro _; omega
      · intro _; omega
      · intro _ h; have := not_and.mp c1 h; omega
    · have hL : largestOf s = s.currentIdx := by
        unfold largestOf; dsimp only; rw [if_neg c1, if_neg c2]
      rw [hL]
      refine ⟨Or.inl rfl, le_refl _, ?_, ?_, ?_, ?_⟩
      · intro h; have := not_and.mp c1 h; omega
      · intro h; have := not_and.mp c2 h; omega
      · intro h; exact absurd rfl h
      · intro h _; omega

/-- The `SORT_HEAPIFY_CHECK` tick in terms of `largestOf`. -/
theorem heapifyCheck_discrete {s : State} (hst : s.state = .SORT_HEAPIFY_CHECK)
    (hb : inBounds s.heap s.currentIdx) (hsz : s.heapSize ≤ s.heap.length) :
    ∃ t, Update s = some t ∧ t.heap.length = s.heap.length ∧
      (∀ k, valAt t.heap k = valAt s.heap k) ∧ t.currentIdx = s.currentIdx ∧
      t.heapSize = s.heapSize ∧
      (largestOf s ≠ s.currentIdx →
        t.compareIdx = largestOf s ∧ t.state = .SORT_HEAPIFY_SWAP) ∧
      (largestOf s = s.currentIdx → t.state = .SORT_EXTRACT ∧ t.compareIdx = s.compareIdx) := by
  have h0 := hb.1
  have hlen := hb.2
  have bl : 2 * s.currentIdx + 1 < s.heapSize → inBounds s.heap (2 * s.currentIdx + 1) :=
    fun h => ⟨by omega, by omega⟩
  have br : 2 * s.currentIdx + 2 < s.heapSize → inBounds s.heap (2 * s.currentIdx + 2) :=
    fun h => ⟨by omega, by omega⟩
  have p1 := pickLarger_eq s (2 * s.currentIdx + 1) s.currentIdx hb bl
  have hl1 : inBounds s.heap
      (if 2 * s.currentIdx + 1 < s.heapSize ∧
          valAt s.heap (2 * s.currentIdx + 1) > valAt s.heap s.currentIdx
        then 2 * s.currentIdx + 1 else s.currentIdx) := by
    split_ifs with c
    · exact bl c.1
    · exact hb
  have p2 := pickLarger_eq s (2 * s.currentIdx + 2) _ hl1 br
  have hlg : inBounds s.heap (largestOf s) := by
    rcases (largestOf_spec s h0).1 with h | ⟨h, hlt⟩ | ⟨h, hlt⟩
    · rw [h]; exact hb
    · rw [h]; exact bl hlt
    · rw [h]; exact br hlt
  have hU : Update s
      = if largestOf s ≠ s.currentIdx then
          (PrepareSwap { s with compareIdx := largestOf s } s.currentIdx (largestOf s)).map
            (fun t => { t with state := .SORT_HEAPIFY_SWAP })
        else some { s with state := .SORT_EXTRACT } := by
    rw [Update_sortHeapifyCheck hst]
    simp only [sortHeapifyCheck, p1, Option.some_bind, p2]
    rfl
  rw [hU]
  by_cases hne : largestOf s ≠ s.currentIdx
  · rw [if_pos hne]
    have hps : ∃ u, PrepareSwap { s with compareIdx := largestOf s } s.currentIdx
        (largestOf s) = some u := by
      simp only [PrepareSwap]
      rw [if_pos ⟨hb, hlg⟩]
      exact ⟨_, rfl⟩
    obtain ⟨u, hu⟩ := hps
    obtain ⟨e1, -, e3, e4, e5, -, -⟩ := PrepareSwap_frame hu
    have ev := PrepareSwap_valAt hu
    rw [hu]
    exact ⟨_, rfl, e1, ev, e4, e3, fun _ => ⟨e5, rfl⟩, fun h => absurd h hne⟩
  · rw [if_neg hne]
    exact ⟨_, rfl, rfl, fun _ => rfl, rfl, rfl, fun h => absurd h hne, fun _ => ⟨rfl, rfl⟩⟩

/-- Claim C15.  In phase `SORT_HEAPIFY_CHECK` with `currentIdx` in bounds and `heapSize` at
most the length, one tick is defined and leaves all values unchanged.  It picks `largest`
among `currentIdx`, `left = 2 * currentIdx + 1` and `right = 2 * currentIdx + 2` (a child
counts only when below `heapSize`): `largest` holds the maximum value of the candidates, a
child is picked only when strictly greater than `currentIdx`, and `right` only when strictly
greater than a counted `left`; `isMaxHeap` plays no part.  If `largest ≠ currentIdx` then
`compareIdx` becomes `largest` and the phase `SORT_HEAPIFY_SWAP`; otherwise the phase becomes
`SORT_EXTRACT`. -/
theorem heapifyCheck_tick (s : State) (hst : s.state = .SORT_HEAPIFY_CHECK)
    (hb : inBounds s.heap s.currentIdx) (hsz : s.heapSize ≤ s.heap.length) :
    ∃ t largest, Update s = some t ∧ values t = values s ∧
      (largest = s.currentIdx ∨
        (largest = 2 * s.currentIdx + 1 ∧ 2 * s.currentIdx + 1 < s.heapSize) ∨
        (largest = 2 * s.currentIdx + 2 ∧ 2 * s.currentIdx + 2 < s.heapSize)) ∧
      valAt s.heap s.currentIdx ≤ valAt s.heap largest ∧
      (2 * s.currentIdx + 1 < s.heapSize →
        valAt s.heap (2 * s.currentIdx + 1) ≤ valAt s.heap largest) ∧
      (2 * s.currentIdx + 2 < s.heapSize →
        valAt s.heap (2 * s.currentIdx + 2) ≤ valAt s.heap largest) ∧
      (largest ≠ s.currentIdx → valAt s.heap s.currentIdx < valAt s.heap largest) ∧
      (largest = 2 * s.currentIdx + 2 → 2 * s.currentIdx + 1 < s.heapSize →
        valAt s.heap (2 * s.currentIdx + 1) < valAt s.heap largest) ∧
      (largest ≠ s.currentIdx → t.compareIdx = largest ∧ t.state = .SORT_HEAPIFY_SWAP) ∧
      (largest = s.currentIdx → t.state = .SORT_EXTRACT) ∧
      (∀ b : Bool, ∃ u, Update { s with isMaxHeap := b } = some u ∧
        u.state = t.state ∧ u.compareIdx = t.compareIdx ∧ values u = values t) := by
  obtain ⟨t, hU, e1, ev, -, -, o1, o2⟩ := heapifyCheck_discrete hst hb hsz
  obtain ⟨q1, q2, q3, q4, q5, q6⟩ := largestOf_spec s hb.1
  have hv : values t = values s := values_ext e1 (fun k _ => ev k)
  refine ⟨t, largestOf s, hU, hv, q1, q2, q3, q4, q5, q6, o1, fun h => (o2 h).1, ?_⟩
  intro b
  obtain ⟨u, hU2, f1, fv, -, -, g1, g2⟩ :=
    heapifyCheck_discrete (s := { s with isMaxHeap := b }) hst hb hsz
  have hL : largestOf { s with isMaxHeap := b } = largestOf s := rfl
  rw [hL] at g1 g2
  refine ⟨u, hU2, ?_, ?_, ?_⟩
  · by_cases hne : largestOf s ≠ s.currentIdx
    · rw [(g1 hne).2, (o1 hne).2]
    · rw [(g2 (not_not.mp hne)).1, (o2 (not_not.mp hne)).1]
  · by_cases hne : largestOf s ≠ s.currentIdx
    · rw [(g1 hne).1, (o1 hne).1]
    · rw [(g2 (not_not.mp hne)).2, (o2 (not_not.mp hne)).2]
  · rw [hv]
    exact values_ext f1 (fun k _ => fv k)

/-- Claim C15 at `sampleHeapify`: the root 3 has children 5 and 8, both live; the right one
is picked. -/
theorem heapifyCheck_tick_witness :
    sampleHeapify.state = .SORT_HEAPIFY_CHECK ∧
    inBounds sampleHeapify.heap sampleHeapify.currentIdx ∧
    sampleHeapify.heapSize ≤ sampleHeapify.heap.length ∧
    ∃ t largest, Update sampleHeapify = some t ∧ values t = values sampleHeapify ∧
      (largest = sampleHeapify.currentIdx ∨
        (largest = 2 * sampleHeapify.currentIdx + 1 ∧
          2 * sampleHeapify.currentIdx + 1 < sampleHeapify.heapSize) ∨
        (largest = 2 * sampleHeapify.currentIdx + 2 ∧
          2 * sampleHeapify.currentIdx + 2 < sampleHeapify.heapSize)) ∧
      valAt sampleHeapify.heap sampleHeapify.currentIdx ≤ valAt sampleHeapify.heap largest ∧
      (2 * sampleHeapify.currentIdx + 1 < sampleHeapify.heapSize →
        valAt sampleHeapify.heap (2 * sampleHeapify.currentIdx + 1)
          ≤ valAt sampleHeapify.heap largest) ∧
      (2 * sampleHeapify.currentIdx + 2 < sampleHeapify.heapSize →
        valAt sampleHeapify.heap (2 * sampleHeapify.currentIdx + 2)
          ≤ valAt sampleHeapify.heap largest) ∧
      (largest ≠ sampleHeapify.currentIdx →
        valAt sampleHeapify.heap sampleHeapify.currentIdx < valAt sampleHeapify.heap largest) ∧
      (largest = 2 * sampleHeapify.currentIdx + 2 →
        2 * sampleHeapify.currentIdx + 1 < sampleHeapify.heapSize →
        valAt sampleHeapify.heap (2 * sampleHeapify.currentIdx + 1)
          < valAt sampleHeapify.heap largest) ∧
      (largest ≠ sampleHeapify.currentIdx →
        t.compareIdx = largest ∧ t.state = .SORT_HEAPIFY_SWAP) ∧
      (largest = sampleHeapify.currentIdx → t.state = .SORT_EXTRACT) ∧
      (∀ b : Bool, ∃ u, Update { sampleHeapify with isMaxHeap := b } = some u ∧
        u.state = t.state ∧ u.compareIdx = t.compareIdx ∧ values u = values t) :=
  ⟨rfl, by decide, by decide, heapifyCheck_tick sampleHeapify rfl (by decide) (by decide)⟩

/-! ## A tick permutes the values -/

theorem swap_range_perm (n i j : Nat) (hi : i < n) (hj : j < n) :
    ((List.range n).map (Equiv.swap i j)).Perm (List.range n) := by
  rw [List.perm_ext_iff_of_nodup
    ((List.nodup_range n).map (Equiv.swap i j).injective) (List.nodup_range n)]
  intro a
  simp only [List.mem_map, List.mem_range]
  constructor
  · rintro ⟨k, hk, rfl⟩
    by_cases e1 : k = i
    · rw [e1, Equiv.swap_apply_left]; exact hj
    · by_cases e2 : k = j
      · rw [e2, Equiv.swap_apply_right]; exact hi
      · rw [Equiv.swap_apply_of_ne_of_ne e1 e2]; exact hk
  · intro ha
    refine ⟨Equiv.swap i j a, ?_, Equiv.swap_apply_self i j a⟩
    by_cases e1 : a = i
    · rw [e1, Equiv.swap_apply_left]; exact hj
    · by_cases e2 : a = j
      · rw [e2, Equiv.swap_apply_right]; exact hi
      · rw [Equiv.swap_apply_of_ne_of_ne e1 e2]; exact ha

/-- Two vectors of one length whose values differ by the exchange of two slots hold the same
values up to order. -/
theorem values_perm_of_swap {a b : List Node} {i j : Int} (hl : b.length = a.length)
    (hi : inBounds a i) (hj : inBounds a j)
    (hv : ∀ k, 0 ≤ k → valAt b k
      = if k = j then valAt a i else if k = i then valAt a j else valAt a k) :
    (b.map Node.value).Perm (a.map Node.value) := by
  have hil : i.toNat < a.length := by have := hi.1; have := hi.2; omega
  have hjl : j.toNat < a.length := by have := hj.1; have := hj.2; omega
  have h0i := hi.1
  have h0j := hj.1
  rw [values_eq_range b, values_eq_range a, hl]
  have key : (List.range a.length).map (fun k : Nat => valAt b (k : Int))
      = ((List.range a.length).map (Equiv.swap i.toNat j.toNat)).map
          (fun k : Nat => valAt a (k : Int)) := by
    rw [List.map_map]
    apply List.map_congr_left
    intro k _
    simp only [Function.comp_apply]
    rw [hv k (Int.ofNat_nonneg k)]
    by_cases e1 : (k : Int) = j
    · rw [if_pos e1]
      have : k = j.toNat := by omega
      rw [this, Equiv.swap_apply_right, Int.toNat_of_nonneg h0i]
    · rw [if_neg e1]
      by_cases e2 : (k : Int) = i
      · rw [if_pos e2]
        have : k = i.toNat := by omega
        rw [this, Equiv.swap_apply_left, Int.toNat_of_nonneg h0j]
      · rw [if_neg e2]
        have n1 : k ≠ i.toNat := by omega
        have n2 : k ≠ j.toNat := by omega
        rw [Equiv.swap_apply_of_ne_of_ne n1 n2]
  rw [key]
  exact (swap_range_perm a.length i.toNat j.toNat hil hjl).map _

theorem Update_perm {s t : State} (h : Update s = some t) :
    t.heap.length = s.heap.length ∧ (values t).Perm (values s) := by
  obtain ⟨e1, -, -, hv⟩ := Update_discrete h
  refine ⟨e1, ?_⟩
  rcases hv with hv | ⟨b1, b2, hv⟩
  · have : values t = values s := values_ext e1 (fun k _ => hv k)
    rw [this]
  · exact values_perm_of_swap e1 b1 b2 hv

/-- Claim C16.  A tick that indexes the vector within bounds keeps its length and the multiset
of its values: the values after the tick are a permutation of those before.  `StartSort` and
a resize keep the values as they are, so only `Insert` and `Reset` change which values are
stored. -/
theorem tick_permutes_values (s t : State) (h : Update s = some t) :
    t.heap.length = s.heap.length ∧ (values t).Perm (values s) ∧
    values (StartSort s) = values s ∧ ∀ r, values (SetRect s r) = values s := by
  obtain ⟨e1, e2⟩ := Update_perm h
  refine ⟨e1, e2, ?_, fun r => ?_⟩
  · unfold StartSort
    split <;> rfl
  · by_cases hi : s.state = .IDLE
    · rw [SetRect_idle s r hi]
      exact values_ext (by simp) (fun k _ => valAt_mapIdx_relayout r s.heap k)
    · rw [SetRect_busy s r hi]; rfl

/-- Claim C16 at the first tick of the sort on `heap835`, which exchanges slots 0 and 2:
`[8, 3, 5]` becomes `[5, 3, 8]`. -/
theorem tick_permutes_values_witness :
    Update (StartSort heap835) = some sortFirstTick ∧
    values (StartSort heap835) = [8, 3, 5] ∧ values sortFirstTick = [5, 3, 8] ∧
    (sortFirstTick.heap.length = (StartSort heap835).heap.length ∧
      (values sortFirstTick).Perm (values (StartSort heap835)) ∧
      values (StartSort (StartSort heap835)) = values (StartSort heap835) ∧
      ∀ r, values (SetRect (StartSort heap835) r) = values (StartSort heap835)) :=
  ⟨by decide!, by decide, by decide,
    tick_permutes_values (StartSort heap835) sortFirstTick (by decide!)⟩

end HeapVisualizer
